import Mathlib

/-!
ML-Maths: density generators and sampling loops.

A shallow embedding of the numerical code of the visualisation components
`typesofdis.jsx` (density and mass generators), `samplingmethods.jsx` (target table,
rejection, Metropolis-Hastings and importance sampling) and `mlti.jsx` (the bivariate
normal density grid).

Conventions of the embedding.

* JavaScript numbers are elements of a linearly ordered field `K` with a floor function
  (`ℚ` for evaluation, `ℝ` for the statements about `exp` and `sqrt`): arithmetic is exact.
* The three continuous generators of `typesofdis.jsx` advance a loop variable by
  `x += step`, where the rounding of each addition decides the trip count. They take the
  rounding `fl` applied after each arithmetic operation on the loop variable, its bounds
  and its step: `fl64` (the nearest binary64 number, ties to even) is the arithmetic of the
  code, `id` is exact arithmetic. A binary64 number is the rational it denotes.
* The transcendental functions of `Math` are passed in as a record `JsMath K`.
* `Math.random()` is a stream `rand : ℕ → K`; a sampler carries the number `pos` of draws
  it has consumed so far, so the `n`-th call of `Math.random()` returns `rand n`.
* A loop whose trip count depends on its data takes an iteration budget `fuel` and
  returns `none` when the budget is exhausted before the loop condition fails.
* `Math.pow(a, k)` is only ever called with a natural exponent and is written `a ^ k`.
* `x.toFixed(2)` is kept as a sign and a number of hundredths, so a data point records both
  what the code stores (the two-decimal label) and, through the label's argument, the
  position at which it was computed.
* Division by zero is `0` in a field; where the code can divide by zero with an effect on
  control flow (`acceptMove`) the JavaScript result is spelled out.
-/

set_option linter.unusedSectionVars false

namespace MLMaths

variable {K : Type} [LinearOrderedField K] [FloorRing K]

/-! ## Data model -/

/-- The functions and constants of JavaScript's `Math` that are not field operations. -/
structure JsMath (K : Type) where
  exp : K → K
  sqrt : K → K
  log : K → K
  cos : K → K
  PI : K

/-- The string produced by `toFixed(2)`: a sign and a number of hundredths,
`⟨true, 133⟩` standing for `"-1.33"`. -/
structure Fixed2 where
  neg : Bool
  hundredths : Nat
deriving DecidableEq, Repr

/-- The call `x.toFixed(2)`: the sign is split off, and the magnitude is rounded to the nearest
hundredth, the larger one on a tie. -/
def toFixed2 (x : K) : Fixed2 :=
  if x < 0 then ⟨true, ⌊(-x) * 100 + 1 / 2⌋₊⟩ else ⟨false, ⌊x * 100 + 1 / 2⌋₊⟩

/-- An object `{ x, y }` of a data series. -/
structure Point (X Y : Type) where
  x : X
  y : Y
deriving DecidableEq, Repr

/-- An object `{ x, y }` pushed by the rejection and Metropolis-Hastings samplers. -/
structure Sample (K : Type) where
  x : K
  y : K
deriving DecidableEq, Repr

/-- An object `{ x, y, weight }` pushed by the importance sampler. -/
structure WeightedSample (K : Type) where
  x : K
  y : K
  weight : K
deriving DecidableEq, Repr

/-! ## Binary64 rounding -/

/-- The number of halvings that take `n` below 2, counting at most `fuel` of them. -/
def log2Loop : Nat → Nat → Nat
  | 0, _ => 0
  | fuel + 1, n => if 2 ≤ n then log2Loop fuel (n / 2) + 1 else 0

/-- The position of the leading binary digit of `n`: the largest `k` with `2 ^ k ≤ n`
(0 for `n = 0`). -/
def natLog2 (n : Nat) : Nat := log2Loop n n

/-- The power `2 ^ k` for an integer exponent. -/
def twoPow (k : Int) : ℚ :=
  if 0 ≤ k then ((2 ^ k.toNat : Nat) : ℚ) else 1 / ((2 ^ (-k).toNat : Nat) : ℚ)

/-- The binary exponent of a positive rational `a`: the `e` with `2 ^ e ≤ a < 2 ^ (e + 1)`. -/
def floorLog2 (a : ℚ) : Int :=
  let e0 : Int := (natLog2 a.num.natAbs : Int) - (natLog2 a.den : Int)
  if twoPow e0 ≤ a then e0 else e0 - 1

/-- The integer nearest to a non-negative rational, the even one on a tie. -/
def roundHalfEven (r : ℚ) : Nat :=
  let f := ⌊r⌋₊
  if r - (f : ℚ) < 1 / 2 then f
  else if 1 / 2 < r - (f : ℚ) then f + 1
  else if f % 2 = 0 then f else f + 1

/-- The rounding of IEEE 754 binary64 arithmetic, which every JavaScript arithmetic
operation applies to its exact result: the nearest number with a 53-bit significand (spacing
`2 ^ (e - 52)`, and `2 ^ (-1074)` in the subnormal range), ties to even. Overflow to
`Infinity` (magnitude from `2 ^ 1024`) is outside the model. -/
def fl64 (q : ℚ) : ℚ :=
  if q = 0 then 0
  else
    let a := |q|
    let e := floorLog2 a
    let ulp := twoPow (max (e - 52) (-1074))
    let m := roundHalfEven (a / ulp)
    if q < 0 then -((m : ℚ) * ulp) else (m : ℚ) * ulp

/-! ## typesofdis.jsx -/

/-- The loop `for (let x = x0; x <= max; x += step) { data.push(body x) }`, started at
`x0` with the array `data`; `fl` is the rounding of the addition `x += step`. -/
def forUpTo {α : Type} (fl : K → K) (body : K → α) (max step : K) :
    Nat → K → List α → Option (List α)
  | 0, _, _ => none
  | fuel + 1, x, data =>
    if x ≤ max then forUpTo fl body max step fuel (fl (x + step)) (data ++ [body x])
    else some data

/-- The default value of the parameter `points` of the three continuous generators. -/
def defaultPoints : K := 100

/-- The value `y` computed in the loop of `generateNormalData`. -/
def normalPdf (M : JsMath K) (mean std x : K) : K :=
  (1 / (std * M.sqrt (2 * M.PI))) * M.exp (-0.5 * ((x - mean) / std) ^ 2)

/-- The function `generateNormalData(mean, std, points)`. The rounding `fl` follows each
operation that produces `min`, `max`, `step` and the loop variable; the value `y` is the
formula at the loop variable. -/
def generateNormalData (fl : K → K) (M : JsMath K) (fuel : Nat) (mean std points : K) :
    Option (List (Point Fixed2 K)) :=
  let min := fl (mean - fl (4 * std))
  let max := fl (mean + fl (4 * std))
  let step := fl (fl (max - min) / points)
  forUpTo fl (fun x => ⟨toFixed2 x, normalPdf M mean std x⟩) max step fuel min []

/-- The value `y` computed in the loop of `generateUniformData`, where `height` is the
constant `1 / (max - min)` computed before the loop. -/
def uniformPdf (fl : K → K) (min max x : K) : K :=
  let height := fl (1 / fl (max - min))
  if x ≥ min ∧ x ≤ max then height else 0

/-- The function `generateUniformData(min, max, points)`, with the rounding `fl` after
each arithmetic operation. -/
def generateUniformData (fl : K → K) (fuel : Nat) (min max points : K) :
    Option (List (Point Fixed2 K)) :=
  let step := fl (fl (max - min) / points)
  forUpTo fl (fun x => ⟨toFixed2 x, uniformPdf fl min max x⟩) (fl (max + 1)) step fuel
    (fl (min - 1)) []

/-- The function `generateExponentialData(lambda, points)`. The rounding `fl` follows each
operation that produces `max`, `step` and the loop variable; the value `y` is the formula
at the loop variable. -/
def generateExponentialData (fl : K → K) (M : JsMath K) (fuel : Nat) (lambda points : K) :
    Option (List (Point Fixed2 K)) :=
  let max := fl (5 / lambda)
  let step := fl (max / points)
  forUpTo fl (fun x => ⟨toFixed2 x, lambda * M.exp (-lambda * x)⟩) max step fuel 0 []

/-- The probability computed in the loop of `generateBinomialData`; `math.combinations`
is the binomial coefficient. -/
def binomialPmf (n : Nat) (p : K) (k : Nat) : K :=
  (Nat.choose n k : K) * p ^ k * (1 - p) ^ (n - k)

/-- The loop `for (let k = k0; k <= n; k++) { data.push({ x: k, y: probability }) }`. -/
def generateBinomialLoop (n : Nat) (p : K) (k : Nat) (data : List (Point Nat K)) :
    List (Point Nat K) :=
  if k ≤ n then generateBinomialLoop n p (k + 1) (data ++ [⟨k, binomialPmf n p k⟩]) else data
termination_by n + 1 - k

/-- The function `generateBinomialData(n, p)`. -/
def generateBinomialData (n : Nat) (p : K) : List (Point Nat K) :=
  generateBinomialLoop n p 0 []

/-- The loop `for (let i = i0; i <= k; i++) { denominator *= i }` of
`generatePoissonData`. -/
def poissonDenominatorLoop (k : Nat) (i : Nat) (denominator : K) : K :=
  if i ≤ k then poissonDenominatorLoop k (i + 1) (denominator * (i : K)) else denominator
termination_by k + 1 - i

/-- The probability computed in the loop of `generatePoissonData` for the index `k`. -/
def poissonPmf (M : JsMath K) (lambda : K) (k : Nat) : K :=
  let numerator := lambda ^ k * M.exp (-lambda)
  let denominator := poissonDenominatorLoop k 2 (1 : K)
  numerator / denominator

/-- The loop `for (let k = k0; k <= maxK; k++) { ... data.push({ x: k, y: probability }) }`
of `generatePoissonData`. -/
def generatePoissonLoop (M : JsMath K) (lambda : K) (maxK : Int) (k : Nat)
    (data : List (Point Nat K)) : List (Point Nat K) :=
  if (k : Int) ≤ maxK then
    generatePoissonLoop M lambda maxK (k + 1) (data ++ [⟨k, poissonPmf M lambda k⟩])
  else data
termination_by (maxK + 1 - (k : Int)).toNat
decreasing_by omega

/-- The function `generatePoissonData(lambda)`. -/
def generatePoissonData (M : JsMath K) (lambda : K) : List (Point Nat K) :=
  let maxK : Int := min 20 ⌈lambda * 3⌉
  generatePoissonLoop M lambda maxK 0 []

/-! ## samplingmethods.jsx: the target table -/

/-- The call `d3.range(start, stop, step)`: `max(0, ceil((stop - start) / step))` values
`start + i * step`. -/
def d3range (start stop step : K) : List K :=
  (List.range ⌈(stop - start) / step⌉₊).map (fun (i : Nat) => start + (i : K) * step)

/-- The callback `val => 0.6 * dist1 + 0.4 * dist2` of `generateTargetDist`. -/
def targetMixture (M : JsMath K) (val : K) : K :=
  let dist1 := M.exp (-(val - 1) ^ 2 / 0.5)
  let dist2 := M.exp (-(val + 1) ^ 2 / 0.8)
  0.6 * dist1 + 0.4 * dist2

/-- The call `Math.max(...y)` on a non-empty array. -/
def mathMax : List K → K
  | [] => 0
  | a :: as => as.foldl max a

/-- The grid `x` of `generateTargetDist`. -/
def targetGrid : List K := d3range (-3) 3 0.1

/-- The array `y` of `generateTargetDist`, before normalisation. -/
def targetDensities (M : JsMath K) : List K := (targetGrid : List K).map (targetMixture M)

/-- The table that `generateTargetDist` stores in `target`. -/
def generateTargetDist (M : JsMath K) : List (Point K K) :=
  let x : List K := targetGrid
  let y := targetDensities M
  let max := mathMax y
  let normalized := y.map (fun val => val / max)
  List.zipWith (fun val n => ⟨val, n⟩) x normalized

/-- The lookup index `Math.floor((x + 3) / 0.1)`. -/
def lookupIdx (x : K) : Int := ⌊(x + 3) / 0.1⌋

/-- The test `idx >= 0 && idx < target.length`. -/
def idxInRange (target : List (Point K K)) (idx : Int) : Prop :=
  0 ≤ idx ∧ idx < (target.length : Int)

instance (target : List (Point K K)) (idx : Int) : Decidable (idxInRange target idx) := by
  unfold idxInRange
  infer_instance

/-- The read `target[idx].y` under the test `idx >= 0 && idx < target.length`. -/
def tableY (target : List (Point K K)) (idx : Int) (h : idxInRange target idx) : K :=
  (target.get ⟨idx.toNat, by unfold idxInRange at h; omega⟩).y

/-! ## samplingmethods.jsx: rejection sampling -/

/-- The variables of the rejection loop, and the number of `Math.random()` calls made. -/
structure RejectionState (K : Type) where
  newSamples : List (Sample K)
  count : Nat
  pos : Nat

/-- The body of the `while` loop of `case 'rejection'`. -/
def rejectionStep (rand : Nat → K) (target : List (Point K K)) (st : RejectionState K) :
    RejectionState K :=
  let count := st.count + 1
  let x := rand st.pos * 6 - 3
  let y := rand (st.pos + 1)
  let idx := lookupIdx x
  if h : idxInRange target idx then
    let targetY := tableY target idx h
    if y < targetY then ⟨st.newSamples ++ [⟨x, y⟩], count, st.pos + 2⟩
    else ⟨st.newSamples, count, st.pos + 2⟩
  else ⟨st.newSamples, count, st.pos + 2⟩

/-- The loop `while (newSamples.length < numSamples && count < 5000) { ... }`. -/
def rejectionLoop (rand : Nat → K) (target : List (Point K K)) (numSamples : Nat)
    (st : RejectionState K) : RejectionState K :=
  if st.newSamples.length < numSamples ∧ st.count < 5000 then
    rejectionLoop rand target numSamples (rejectionStep rand target st)
  else st
termination_by 5000 - st.count
decreasing_by
  have hcount : (rejectionStep rand target st).count = st.count + 1 := by
    unfold rejectionStep
    dsimp only
    split_ifs <;> rfl
  omega

/-- The final variables of `case 'rejection'` of `generateSamples`; `newSamples` is the
array handed to `setSamples`. -/
def rejectionSampling (rand : Nat → K) (target : List (Point K K)) : RejectionState K :=
  rejectionLoop rand target 300 ⟨[], 0, 0⟩

/-! ## samplingmethods.jsx: Metropolis-Hastings -/

/-- The variables of the Metropolis-Hastings loop, and the number of `Math.random()`
calls made. -/
structure McmcState (K : Type) where
  current : K
  pos : Nat
  newSamples : List (Sample K)

/-- The test `r < Math.min(1, proposedDensity / currentDensity)`. A division by zero gives
`Infinity` for a positive numerator, so that the minimum is 1, and `-Infinity` or `NaN`
otherwise, for which the comparison is false. -/
def acceptMove (r proposedDensity currentDensity : K) : Bool :=
  if currentDensity = 0 then decide (0 < proposedDensity) && decide (r < 1)
  else decide (r < min 1 (proposedDensity / currentDensity))

/-- The body of the `for` loop of `case 'mcmc'`, at loop index `i`. -/
def mcmcStep (rand : Nat → K) (target : List (Point K K)) (i : Nat) (st : McmcState K) :
    McmcState K :=
  let proposed := st.current + (rand st.pos - 0.5) * 0.5
  let pos := st.pos + 1
  let moved : K × Nat :=
    if proposed ≥ -3 ∧ proposed ≤ 3 then
      let currentIdx := lookupIdx st.current
      let proposedIdx := lookupIdx proposed
      if h : idxInRange target currentIdx ∧ idxInRange target proposedIdx then
        let currentDensity := tableY target currentIdx h.1
        let proposedDensity := tableY target proposedIdx h.2
        if acceptMove (rand pos) proposedDensity currentDensity then (proposed, pos + 1)
        else (st.current, pos + 1)
      else (st.current, pos)
    else (st.current, pos)
  if i ≥ 500 then
    let y := rand moved.2 * 0.1
    ⟨moved.1, moved.2 + 1, st.newSamples ++ [⟨moved.1, y⟩]⟩
  else ⟨moved.1, moved.2, st.newSamples⟩

/-- The loop `for (let i = i0; i < n; i++) { ... }` of `case 'mcmc'`. -/
def mcmcLoop (rand : Nat → K) (target : List (Point K K)) (n : Nat) (i : Nat)
    (st : McmcState K) : McmcState K :=
  if i < n then mcmcLoop rand target n (i + 1) (mcmcStep rand target i st) else st
termination_by n - i

/-- The variables of `case 'mcmc'` when the loop is entered:
`current = (Math.random() * 6) - 3`. -/
def mcmcInit (rand : Nat → K) : McmcState K := ⟨rand 0 * 6 - 3, 1, []⟩

/-- The final variables of `case 'mcmc'` of `generateSamples`, with `numSamples = 300`. -/
def mcmcSampling (rand : Nat → K) (target : List (Point K K)) : McmcState K :=
  mcmcLoop rand target (300 + 500) 0 (mcmcInit rand)

/-- The variables after the first `k` iterations of the Metropolis-Hastings loop body,
for loop indices `0, 1, ..., k - 1`. -/
def mcmcAfter (rand : Nat → K) (target : List (Point K K)) (k : Nat) : McmcState K :=
  (List.range k).foldl (fun st i => mcmcStep rand target i st) (mcmcInit rand)

/-! ## samplingmethods.jsx: importance sampling -/

/-- The proposal density computed in `case 'importance'`. -/
def proposalDensity (M : JsMath K) (x : K) : K :=
  M.exp (-x ^ 2 / (2 * 1.5 * 1.5)) / (1.5 * M.sqrt (2 * M.PI))

/-- The variable `weight` of `case 'importance'` when the sample is pushed: it starts
at 1 and is overwritten only under `if (idx >= 0 && idx < target.length)`. -/
def importanceWeight (M : JsMath K) (target : List (Point K K)) (x : K) : K :=
  let idx := lookupIdx x
  let weight : K := 1
  if h : idxInRange target idx then
    let targetDensity := tableY target idx h
    targetDensity / (proposalDensity M x * 4)
  else weight

/-- The statement `if (x >= -3 && x <= 3) { ... newSamples.push(...) }` of
`case 'importance'`, where `r` is the value of the `Math.random()` call for `y`. -/
def importancePush (M : JsMath K) (target : List (Point K K)) (x r : K)
    (newSamples : List (WeightedSample K)) : List (WeightedSample K) :=
  if x ≥ -3 ∧ x ≤ 3 then
    let y := r * 0.1
    newSamples ++ [⟨x, y, min (importanceWeight M target x) 5⟩]
  else newSamples

/-- The loop `while (u === 0) u = Math.random()` entered with `u = 0`: the first non-zero
draw, and the position after it. -/
def drawNonzero (rand : Nat → K) : Nat → Nat → Option (K × Nat)
  | 0, _ => none
  | fuel + 1, pos =>
    if rand pos = 0 then drawNonzero rand fuel (pos + 1) else some (rand pos, pos + 1)

/-- The variables of the importance loop, and the number of `Math.random()` calls made. -/
structure ImportanceState (K : Type) where
  pos : Nat
  newSamples : List (WeightedSample K)

/-- The body of the `for` loop of `case 'importance'`; `fuel` bounds each of the two
`while` loops. -/
def importanceStep (M : JsMath K) (rand : Nat → K) (target : List (Point K K)) (fuel : Nat)
    (st : ImportanceState K) : Option (ImportanceState K) :=
  match drawNonzero rand fuel st.pos with
  | none => none
  | some (u, pos1) =>
    match drawNonzero rand fuel pos1 with
    | none => none
    | some (v, pos2) =>
      let z := M.sqrt (-2.0 * M.log u) * M.cos (2.0 * M.PI * v)
      let x := z * 1.5
      if x ≥ -3 ∧ x ≤ 3 then
        some ⟨pos2 + 1, importancePush M target x (rand pos2) st.newSamples⟩
      else some ⟨pos2, st.newSamples⟩

/-- The loop `for (let i = 0; i < numSamples; i++) { ... }` of `case 'importance'`, with
`n` iterations left. -/
def importanceLoop (M : JsMath K) (rand : Nat → K) (target : List (Point K K)) (fuel : Nat) :
    Nat → ImportanceState K → Option (ImportanceState K)
  | 0, st => some st
  | n + 1, st =>
    match importanceStep M rand target fuel st with
    | none => none
    | some st1 => importanceLoop M rand target fuel n st1

/-- The final variables of `case 'importance'` of `generateSamples`, with
`numSamples = 300`. -/
def importanceSampling (M : JsMath K) (rand : Nat → K) (target : List (Point K K))
    (fuel : Nat) : Option (ImportanceState K) :=
  importanceLoop M rand target fuel 300 ⟨0, []⟩

/-! ## mlti.jsx: the bivariate normal density grid -/

/-- The value assigned to `z[i]` in the nested loops of `mlti.jsx`, for the grid values
`x_val` and `y_val`. -/
def bivariateDensity (M : JsMath K) (x_val y_val : K) : K :=
  let mu1 : K := 0
  let mu2 : K := 0
  let sigma1 : K := 1
  let sigma2 : K := 1
  let rho : K := 0.7
  let term1 := 1 / (2 * M.PI * sigma1 * sigma2 * M.sqrt (1 - rho * rho))
  let term2 := -1 / (2 * (1 - rho * rho))
  let term3 := ((x_val - mu1) / sigma1) ^ 2
  let term4 := ((y_val - mu2) / sigma2) ^ 2
  let term5 := 2 * rho * ((x_val - mu1) / sigma1) * ((y_val - mu2) / sigma2)
  term1 * M.exp (term2 * (term3 + term4 - term5))

/-- The array `z` of `mlti.jsx`, a slot never assigned being `none`, and the write
index `i`. -/
structure GridState (K : Type) where
  z : List (Option K)
  i : Nat

/-- The assignment `z[i] = v` followed by `i++`. -/
def gridWrite (st : GridState K) (v : K) : GridState K :=
  ⟨st.z.set st.i (some v), st.i + 1⟩

/-- The body of the inner loop, at `yi` and `xi`: it reads `x[xi]` and `y[yi]` (both
arrays have `n` entries, so the reads are in range) and writes the density. -/
def gridCell (M : JsMath K) (x y : List K) (yi : Nat) (st : GridState K) (xi : Nat) :
    GridState K :=
  let x_val := x.getD xi 0
  let y_val := y.getD yi 0
  gridWrite st (bivariateDensity M x_val y_val)

/-- The inner loop `for (let xi = 0; xi < n; ++xi) { ... }` at row `yi`. -/
def gridRow (M : JsMath K) (x y : List K) (n : Nat) (st : GridState K) (yi : Nat) :
    GridState K :=
  (List.range n).foldl (gridCell M x y yi) st

/-- The arrays and loops that fill `z` in `mlti.jsx`: `n = 50`, `x` and `y` from
`d3.range(-3, 3, 6 / n)`, `z = new Array(n * n)`, `i = 0`, then the outer loop
`for (let yi = 0; yi < n; ++yi) { ... }`. -/
def densityGrid (M : JsMath K) : GridState K :=
  let n : Nat := 50
  let x : List K := d3range (-3) 3 (6 / (n : K))
  let y : List K := d3range (-3) 3 (6 / (n : K))
  let z : List (Option K) := List.replicate (n * n) none
  (List.range n).foldl (gridRow M x y n) ⟨z, 0⟩

/-! ## Reference formulations -/

/-- The mixture density in the words of the specification: two Gaussians with weights 0.6
and 0.4, means 1 and -1, and variances 0.5 and 0.8. -/
def specMixture (M : JsMath K) (x : K) : K :=
  0.6 * M.exp (-(x - 1) ^ 2 / (2 * 0.5)) + 0.4 * M.exp (-(x + 1) ^ 2 / (2 * 0.8))

/-- Proposal number `j` (counted from 0) of the rejection sampler: its `x` comes from draw
`2 * j` and its `y` from draw `2 * j + 1`. -/
def rejectionProposal (rand : Nat → K) (j : Nat) : Sample K :=
  ⟨rand (2 * j) * 6 - 3, rand (2 * j + 1)⟩

/-- The acceptance test of the rejection sampler on a proposal `(x, y)`: the index
`floor((x + 3) / 0.1)` is inside the table and `y < target[idx].y`. -/
def rejectionAccepts (target : List (Point K K)) (s : Sample K) : Prop :=
  ∃ h : idxInRange target (lookupIdx s.x), s.y < tableY target (lookupIdx s.x) h

instance (target : List (Point K K)) (s : Sample K) : Decidable (rejectionAccepts target s) := by
  unfold rejectionAccepts
  infer_instance

/-- The proposals among the first `n` that pass the acceptance test, in order. -/
def acceptedAmong (rand : Nat → K) (target : List (Point K K)) (n : Nat) : List (Sample K) :=
  ((List.range n).map (rejectionProposal rand)).filter (fun s => rejectionAccepts target s)

/-! ## Lemmas on the loops -/

theorem rejectionStep_count (rand : Nat → K) (target : List (Point K K))
    (st : RejectionState K) : (rejectionStep rand target st).count = st.count + 1 := by
  unfold rejectionStep
  dsimp only
  split_ifs <;> rfl

theorem forUpTo_eq {α : Type} (body : K → α) (max step : K) (n : Nat) :
    ∀ (fuel : Nat) (x : K) (data : List α),
      (∀ k : Nat, k < n → x + (k : K) * step ≤ max) → ¬ (x + (n : K) * step ≤ max) →
      n < fuel →
      forUpTo id body max step fuel x data
        = some (data ++ (List.range n).map (fun (k : Nat) => body (x + (k : K) * step))) := by
  induction n with
  | zero =>
    intro fuel x data _ hstop hfuel
    obtain ⟨f, rfl⟩ : ∃ f, fuel = f + 1 := ⟨fuel - 1, by omega⟩
    have hx : ¬ x ≤ max := by simpa using hstop
    simp [forUpTo, hx]
  | succ n ih =>
    intro fuel x data hgo hstop hfuel
    obtain ⟨f, rfl⟩ : ∃ f, fuel = f + 1 := ⟨fuel - 1, by omega⟩
    have hx : x ≤ max := by simpa using hgo 0 (Nat.succ_pos n)
    have hshift : ∀ k : Nat, x + step + (k : K) * step = x + ((k + 1 : Nat) : K) * step := by
      intro k
      push_cast
      ring
    rw [forUpTo, if_pos hx, id_eq, ih f (x + step) (data ++ [body x])]
    · rw [List.range_succ_eq_map, List.map_cons, List.map_map]
      simp only [List.append_assoc, List.singleton_append, Nat.cast_zero, zero_mul, add_zero]
      congr 3
      apply List.map_congr_left
      intro k _
      simp only [Function.comp, hshift, Nat.succ_eq_add_one]
    · intro k hk
      rw [hshift]
      exact hgo (k + 1) (by omega)
    · rw [hshift]
      exact hstop
    · omega

theorem forUpTo_stuck {α : Type} (fl : K → K) (body : K → α) (max step x : K)
    (hfix : fl (x + step) = x) (hx : x ≤ max) :
    ∀ (fuel : Nat) (data : List α), forUpTo fl body max step fuel x data = none := by
  intro fuel
  induction fuel with
  | zero => intro data; rfl
  | succ f ih =>
    intro data
    rw [forUpTo, if_pos hx, hfix]
    exact ih _

theorem forUpTo_map {α β : Type} (fl : K → K) (body : K → α) (f : α → β) (max step : K) :
    ∀ (fuel : Nat) (x : K) (data : List α),
      (forUpTo fl body max step fuel x data).map (List.map f)
        = forUpTo fl (fun x => f (body x)) max step fuel x (data.map f) := by
  intro fuel
  induction fuel with
  | zero => intro x data; rfl
  | succ n ih =>
    intro x data
    rw [forUpTo, forUpTo]
    by_cases hx : x ≤ max
    · rw [if_pos hx, if_pos hx, ih]
      simp
    · rw [if_neg hx, if_neg hx]
      rfl

theorem forUpTo_fuel_mono {α : Type} (fl : K → K) (body : K → α) (max step : K) (k : Nat) :
    ∀ (fuel : Nat) (x : K) (data r : List α),
      forUpTo fl body max step fuel x data = some r →
      forUpTo fl body max step (fuel + k) x data = some r := by
  intro fuel
  induction fuel with
  | zero =>
    intro x data r h
    exact absurd h (by simp [forUpTo])
  | succ n ih =>
    intro x data r h
    rw [show n + 1 + k = (n + k) + 1 by omega, forUpTo]
    rw [forUpTo] at h
    by_cases hx : x ≤ max
    · rw [if_pos hx] at h ⊢
      exact ih _ _ _ h
    · rw [if_neg hx] at h ⊢
      exact h

theorem generateBinomialLoop_eq (n : Nat) (p : K) (m : Nat) :
    ∀ (k : Nat) (data : List (Point Nat K)), k + m = n + 1 →
      generateBinomialLoop n p k data
        = data ++ (List.range m).map (fun j => ⟨k + j, binomialPmf n p (k + j)⟩) := by
  induction m with
  | zero =>
    intro k data hk
    rw [generateBinomialLoop, if_neg (by omega)]
    simp
  | succ m ih =>
    intro k data hk
    rw [generateBinomialLoop, if_pos (by omega), ih (k + 1) _ (by omega)]
    rw [List.range_succ_eq_map, List.map_cons, List.map_map]
    simp only [List.append_assoc, List.singleton_append, Nat.add_zero]
    congr 2
    apply List.map_congr_left
    intro j _
    simp only [Function.comp]
    simp only [Nat.succ_eq_add_one]
    rw [show k + 1 + j = k + (j + 1) by omega]

theorem generateBinomialData_eq (n : Nat) (p : K) :
    generateBinomialData n p
      = (List.range (n + 1)).map (fun k => (⟨k, binomialPmf n p k⟩ : Point Nat K)) := by
  unfold generateBinomialData
  rw [generateBinomialLoop_eq n p (n + 1) 0 [] (by omega)]
  simp

theorem sum_map_range_eq {M : Type} [AddCommMonoid M] (f : Nat → M) (n : Nat) :
    ((List.range n).map f).sum = ∑ k in Finset.range n, f k := by
  induction n with
  | zero => simp
  | succ n ih => rw [List.sum_range_succ, Finset.sum_range_succ, ih]

theorem forUpTo_pos_step {α : Type} (body : K → α) (max step x : K) (hstep : 0 < step)
    (hx : x ≤ max) (fuel : Nat) (data : List α) (hfuel : ⌊(max - x) / step⌋₊ + 1 < fuel) :
    forUpTo id body max step fuel x data
      = some (data ++ (List.range (⌊(max - x) / step⌋₊ + 1)).map
          (fun (k : Nat) => body (x + (k : K) * step))) := by
  have hq : 0 ≤ (max - x) / step := div_nonneg (sub_nonneg.mpr hx) hstep.le
  apply forUpTo_eq body max step _ fuel x data _ _ hfuel
  · intro k hk
    have hk1 : (k : K) ≤ (max - x) / step := (Nat.le_floor_iff hq).mp (by omega)
    have := (le_div_iff₀ hstep).mp hk1
    linarith
  · intro hle
    have hk1 : ((⌊(max - x) / step⌋₊ + 1 : Nat) : K) ≤ (max - x) / step := by
      rw [le_div_iff₀ hstep]
      linarith
    have := (Nat.le_floor_iff hq).mpr hk1
    omega

/-! ## Binomial mass function -/

/-- C1: for every trial count `n` and every `p` (in particular `0 < p < 1`),
`generateBinomialData(n, p)` returns exactly `n + 1` points, with `x = 0, 1, ..., n` in that
order and `y = C(n,k) * p^k * (1-p)^(n-k)` at `x = k`, and the returned probabilities sum
to 1 exactly, hence within `1e-6`. -/
theorem generateBinomialData_sums_to_one (n : Nat) (p : K) :
    (generateBinomialData n p).length = n + 1
    ∧ (generateBinomialData n p).map (fun pt => pt.x) = List.range (n + 1)
    ∧ (∀ k : Nat, k ≤ n → (generateBinomialData n p)[k]?
        = some ⟨k, (Nat.choose n k : K) * p ^ k * (1 - p) ^ (n - k)⟩)
    ∧ ((generateBinomialData n p).map (fun pt => pt.y)).sum = 1
    ∧ |((generateBinomialData n p).map (fun pt => pt.y)).sum - 1| ≤ 1e-6 := by
  have hsum : ((generateBinomialData n p).map (fun pt => pt.y)).sum = 1 := by
    rw [generateBinomialData_eq, List.map_map]
    have hf : ((fun pt : Point Nat K => pt.y) ∘ fun k => (⟨k, binomialPmf n p k⟩ : Point Nat K))
        = fun k => binomialPmf n p k := rfl
    rw [hf, sum_map_range_eq]
    have h := add_pow p (1 - p) n
    rw [add_sub_cancel, one_pow] at h
    rw [h]
    apply Finset.sum_congr rfl
    intro k _
    unfold binomialPmf
    ring
  refine ⟨?_, ?_, ?_, hsum, ?_⟩
  · rw [generateBinomialData_eq]
    simp
  · rw [generateBinomialData_eq, List.map_map]
    exact List.map_id _
  · intro k hk
    rw [generateBinomialData_eq]
    rw [List.getElem?_map, List.getElem?_range (by omega)]
    rfl
  · rw [hsum]
    norm_num

/-! ## Uniform density -/

theorem fl64_zero : fl64 0 = 0 := by decide!

theorem fl64_one : fl64 1 = 1 := by decide!

theorem fl64_neg_one : fl64 (-1) = -1 := by decide!

/-- C2: `generateUniformData(0, 0)`, which the sliders allow (minimum at its upper end 0,
maximum at its lower end 0), does not terminate: `step = (0 - 0) / 100 = 0`, so the loop
`for (x = -1; x <= 1; x += 0)` never leaves its condition, whatever the iteration budget,
in exact arithmetic as in binary64 arithmetic. -/
theorem generateUniformData_zero_width_diverges (fuel : Nat) :
    generateUniformData id fuel (0 : K) 0 defaultPoints = none
    ∧ generateUniformData fl64 fuel (0 : ℚ) 0 defaultPoints = none := by
  constructor
  · unfold generateUniformData
    simp only [id_eq, sub_self, zero_div]
    exact forUpTo_stuck _ _ _ _ _ (by norm_num) (by norm_num) fuel []
  · unfold generateUniformData
    simp only [sub_self, zero_div, fl64_zero, zero_sub, zero_add, fl64_one, fl64_neg_one]
    exact forUpTo_stuck _ _ _ _ _ (by rw [add_zero, fl64_neg_one]) (by norm_num) fuel []

theorem generateUniformData_eq (min max : K) (h : min < max) (fuel : Nat)
    (hfuel : ⌊(max + 1 - (min - 1)) / ((max - min) / 100)⌋₊ + 1 < fuel) :
    generateUniformData id fuel min max defaultPoints
      = some ((List.range (⌊(max + 1 - (min - 1)) / ((max - min) / 100)⌋₊ + 1)).map
          (fun (k : Nat) =>
            (⟨toFixed2 (min - 1 + (k : K) * ((max - min) / 100)),
              uniformPdf id min max (min - 1 + (k : K) * ((max - min) / 100))⟩ :
              Point Fixed2 K))) := by
  unfold generateUniformData defaultPoints
  simp only [id_eq]
  have hstep : 0 < (max - min) / 100 := div_pos (sub_pos.mpr h) (by norm_num)
  rw [forUpTo_pos_step _ _ _ _ hstep (by linarith) fuel [] hfuel]
  simp

theorem generateUniformData_slider_bound (min max : K) (h : min + 1 / 2 ≤ max) :
    ⌊(max + 1 - (min - 1)) / ((max - min) / 100)⌋₊ + 1 ≤ 501 := by
  have hpos : 0 < max - min := by linarith
  have hle : (max + 1 - (min - 1)) / ((max - min) / 100) ≤ ((500 : Nat) : K) := by
    rw [div_le_iff₀ (div_pos hpos (by norm_num))]
    push_cast
    linarith
  have := Nat.floor_le_of_le hle
  omega

theorem generateUniformData_fuel_mono (fl : K → K) (min max points : K) (fuel k : Nat)
    (r : List (Point Fixed2 K)) (h : generateUniformData fl fuel min max points = some r) :
    generateUniformData fl (fuel + k) min max points = some r := by
  unfold generateUniformData at h ⊢
  exact forUpTo_fuel_mono _ _ _ _ k fuel _ _ r h

theorem generateUniformData_run_neg_two_two :
    (generateUniformData fl64 151 (-2) 2 defaultPoints).map List.length = some 150
    ∧ (generateUniformData fl64 151 (-2) 2 defaultPoints).map (fun data => data[125]?)
        = some (some ⟨⟨false, 200⟩, 0⟩)
    ∧ (generateUniformData fl64 151 (-2) 2 defaultPoints).map (fun data => data[124]?)
        = some (some ⟨⟨false, 196⟩, 1 / 4⟩)
    ∧ (generateUniformData fl64 151 (-2) 2 defaultPoints).map (fun data => data[25]?)
        = some (some ⟨⟨true, 200⟩, 1 / 4⟩) := by
  decide!

/-- C7: `generateUniformData(-2, 2)` returns 150 points, and the point at index 125 is
`{ x: "2.00", y: 0 }`: the loop variable there is 2.000000000000003, just above `max`, so
the point labelled `2.00 = max` carries 0 where the claim, and the formula the component
displays (`1/(b-a) for a ≤ x ≤ b`), give `1 / (2 - (-2)) = 1/4`. The points at indices 25
(`"-2.00"`) and 124 (`"1.96"`) carry `1/4`. -/
theorem generateUniformData_endpoint_zero (fuel : Nat) :
    ∃ data : List (Point Fixed2 ℚ),
      generateUniformData fl64 (151 + fuel) (-2) 2 defaultPoints = some data
      ∧ data.length = 150
      ∧ data[125]? = some ⟨⟨false, 200⟩, 0⟩
      ∧ data[124]? = some ⟨⟨false, 196⟩, 1 / 4⟩
      ∧ data[25]? = some ⟨⟨true, 200⟩, 1 / 4⟩
      ∧ (0 : ℚ) ≠ 1 / (2 - (-2)) := by
  obtain ⟨h1, h2, h3, h4⟩ := generateUniformData_run_neg_two_two
  cases hE : generateUniformData fl64 151 (-2) 2 defaultPoints with
  | none =>
    rw [hE] at h1
    exact absurd h1 (by simp)
  | some data =>
    rw [hE] at h1 h2 h3 h4
    simp only [Option.map_some', Option.some.injEq] at h1 h2 h3 h4
    exact ⟨data, generateUniformData_fuel_mono fl64 _ _ _ 151 fuel data hE, h1, h2, h3, h4,
      by norm_num⟩

/-! ## Normal and exponential densities -/

theorem generateNormalData_eq (M : JsMath K) (mean std : K) (hstd : 0 < std) (fuel : Nat)
    (hfuel : 101 < fuel) :
    generateNormalData id M fuel mean std defaultPoints
      = some ((List.range 101).map (fun (k : Nat) =>
          (⟨toFixed2 (mean - 4 * std + (k : K) * (8 * std / 100)),
            normalPdf M mean std (mean - 4 * std + (k : K) * (8 * std / 100))⟩ :
            Point Fixed2 K))) := by
  unfold generateNormalData defaultPoints
  simp only [id_eq]
  have hstep : (mean + 4 * std - (mean - 4 * std)) / 100 = 8 * std / 100 := by ring
  simp only [hstep]
  rw [forUpTo_eq _ _ _ 101 fuel _ [] _ _ hfuel]
  · simp
  · intro k hk
    have hk1 : (k : K) ≤ 100 := by exact_mod_cast Nat.le_of_lt_succ hk
    nlinarith [mul_le_mul_of_nonneg_right hk1 hstd.le]
  · push_cast
    intro hle
    linarith

theorem generateExponentialData_eq (M : JsMath K) (lambda : K) (hl : 0 < lambda) (fuel : Nat)
    (hfuel : 101 < fuel) :
    generateExponentialData id M fuel lambda defaultPoints
      = some ((List.range 101).map (fun (k : Nat) =>
          (⟨toFixed2 (0 + (k : K) * (5 / lambda / 100)),
            lambda * M.exp (-lambda * (0 + (k : K) * (5 / lambda / 100)))⟩ :
            Point Fixed2 K))) := by
  unfold generateExponentialData defaultPoints
  simp only [id_eq]
  have hmax : 0 < 5 / lambda := div_pos (by norm_num) hl
  rw [forUpTo_eq _ _ _ 101 fuel _ [] _ _ hfuel]
  · simp
  · intro k hk
    have hk1 : (k : K) ≤ 100 := by exact_mod_cast Nat.le_of_lt_succ hk
    nlinarith [mul_le_mul_of_nonneg_right hk1 hmax.le]
  · push_cast
    intro hle
    linarith

theorem generateNormalData_labels (fl : K → K) (M : JsMath K) (fuel : Nat)
    (mean std points : K) :
    (generateNormalData fl M fuel mean std points).map (List.map (fun pt => pt.x))
      = forUpTo fl toFixed2 (fl (mean + fl (4 * std)))
          (fl (fl (fl (mean + fl (4 * std)) - fl (mean - fl (4 * std))) / points)) fuel
          (fl (mean - fl (4 * std))) [] := by
  unfold generateNormalData
  exact forUpTo_map fl (fun x => (⟨toFixed2 x, normalPdf M mean std x⟩ : Point Fixed2 K))
    (fun pt => pt.x) _ _ fuel _ []

theorem normal_default_labels :
    (forUpTo fl64 toFixed2 (fl64 (0 + fl64 (4 * 1)))
        (fl64 (fl64 (fl64 (0 + fl64 (4 * 1)) - fl64 (0 - fl64 (4 * 1))) / defaultPoints)) 101
        (fl64 (0 - fl64 (4 * 1))) []).map List.length = some 100
    ∧ (forUpTo fl64 toFixed2 (fl64 (0 + fl64 (4 * 1)))
        (fl64 (fl64 (fl64 (0 + fl64 (4 * 1)) - fl64 (0 - fl64 (4 * 1))) / defaultPoints)) 101
        (fl64 (0 - fl64 (4 * 1))) []).map List.head? = some (some ⟨true, 400⟩)
    ∧ (forUpTo fl64 toFixed2 (fl64 (0 + fl64 (4 * 1)))
        (fl64 (fl64 (fl64 (0 + fl64 (4 * 1)) - fl64 (0 - fl64 (4 * 1))) / defaultPoints)) 101
        (fl64 (0 - fl64 (4 * 1))) []).map List.getLast? = some (some ⟨false, 392⟩) := by
  decide!

theorem normal_default_overshoot :
    fl64 (fl64 (fl64 (0 + fl64 (4 * 1)) - fl64 (0 - fl64 (4 * 1))) / defaultPoints)
      = 5764607523034235 / 72057594037927936
    ∧ (forUpTo fl64 id (fl64 (0 + fl64 (4 * 1)))
        (fl64 (fl64 (fl64 (0 + fl64 (4 * 1)) - fl64 (0 - fl64 (4 * 1))) / defaultPoints)) 101
        (fl64 (0 - fl64 (4 * 1))) []).map List.getLast?
        = some (some (8827055269646183 / 2251799813685248))
    ∧ (4 : ℚ) < fl64 (8827055269646183 / 2251799813685248
        + 5764607523034235 / 72057594037927936) := by
  decide!

/-- C5: `generateNormalData(0, 1)` with the default `points = 100`, the setting the
component starts with, returns 100 points, not 101: the labels run from `-4.00` to `3.92`.
The loop variable reaches 3.9200000000000035 (`8827055269646183 / 2 ^ 51`) after 99
additions of the binary64 step 0.08, and the next addition gives a number above `max = 4`,
so the point at `mean + 4 * std` is never pushed. -/
theorem generateNormalData_default_drops_endpoint (M : JsMath ℚ) (fuel : Nat) :
    ∃ data : List (Point Fixed2 ℚ),
      generateNormalData fl64 M (101 + fuel) 0 1 defaultPoints = some data
      ∧ data.length = 100
      ∧ (data.map (fun pt => pt.x)).head? = some ⟨true, 400⟩
      ∧ (data.map (fun pt => pt.x)).getLast? = some ⟨false, 392⟩
      ∧ (4 : ℚ) < fl64 (8827055269646183 / 2251799813685248
          + fl64 (fl64 (fl64 (0 + fl64 (4 * 1)) - fl64 (0 - fl64 (4 * 1))) / defaultPoints)) := by
  obtain ⟨h1, h2, h3⟩ := normal_default_labels
  obtain ⟨hs, _, hover⟩ := normal_default_overshoot
  cases hE : forUpTo fl64 toFixed2 (fl64 (0 + fl64 (4 * 1)))
      (fl64 (fl64 (fl64 (0 + fl64 (4 * 1)) - fl64 (0 - fl64 (4 * 1))) / defaultPoints)) 101
      (fl64 (0 - fl64 (4 * 1))) [] with
  | none =>
    rw [hE] at h1
    exact absurd h1 (by simp)
  | some labels =>
    rw [hE] at h1 h2 h3
    simp only [Option.map_some', Option.some.injEq] at h1 h2 h3
    have hlab := generateNormalData_labels fl64 M (101 + fuel) 0 1 defaultPoints
    rw [forUpTo_fuel_mono fl64 _ _ _ fuel 101 _ _ labels hE] at hlab
    obtain ⟨data, hdata, hmap⟩ := Option.map_eq_some'.mp hlab
    refine ⟨data, hdata, ?_, ?_, ?_, ?_⟩
    · rw [← h1, ← hmap, List.length_map]
    · rw [hmap]
      exact h2
    · rw [hmap]
      exact h3
    · rw [hs]
      exact hover

theorem normalPdf_le_peak (mean std x : ℝ) (hstd : 0 < std) :
    normalPdf ⟨Real.exp, Real.sqrt, Real.log, Real.cos, Real.pi⟩ mean std x
      ≤ 1 / (std * Real.sqrt (2 * Real.pi)) := by
  unfold normalPdf
  have hc : 0 ≤ 1 / (std * Real.sqrt (2 * Real.pi)) := by positivity
  have he : Real.exp (-0.5 * ((x - mean) / std) ^ 2) ≤ 1 := by
    rw [Real.exp_le_one_iff]
    nlinarith [sq_nonneg ((x - mean) / std)]
  simpa using mul_le_mul_of_nonneg_left he hc

theorem normalPdf_at_mean (mean std : ℝ) :
    normalPdf ⟨Real.exp, Real.sqrt, Real.log, Real.cos, Real.pi⟩ mean std mean
      = 1 / (std * Real.sqrt (2 * Real.pi)) := by
  unfold normalPdf
  simp

/-- C6: for every mean, every `std > 0` and every real `x`, the normal density computed in
`generateNormalData` is at most its value at `x = mean`, and that value equals
`1 / (std * sqrt(2 * pi))`. -/
theorem normalPdf_max_at_mean (mean std x : ℝ) (hstd : 0 < std) :
    normalPdf ⟨Real.exp, Real.sqrt, Real.log, Real.cos, Real.pi⟩ mean std x
      ≤ normalPdf ⟨Real.exp, Real.sqrt, Real.log, Real.cos, Real.pi⟩ mean std mean
    ∧ normalPdf ⟨Real.exp, Real.sqrt, Real.log, Real.cos, Real.pi⟩ mean std mean
      = 1 / (std * Real.sqrt (2 * Real.pi)) := by
  refine ⟨?_, normalPdf_at_mean mean std⟩
  rw [normalPdf_at_mean]
  exact normalPdf_le_peak mean std x hstd

/-- Witness for C6, at `mean = 0`, `std = 1`, `x = 1`. -/
theorem normalPdf_max_at_mean_witness :
    (0 : ℝ) < 1
    ∧ normalPdf ⟨Real.exp, Real.sqrt, Real.log, Real.cos, Real.pi⟩ (0 : ℝ) 1 1
      ≤ normalPdf ⟨Real.exp, Real.sqrt, Real.log, Real.cos, Real.pi⟩ (0 : ℝ) 1 0
    ∧ normalPdf ⟨Real.exp, Real.sqrt, Real.log, Real.cos, Real.pi⟩ (0 : ℝ) 1 0
      = 1 / (1 * Real.sqrt (2 * Real.pi)) :=
  ⟨by norm_num, normalPdf_max_at_mean 0 1 1 (by norm_num)⟩

/-! ## Importance sampling and the target table -/

theorem targetGrid_eq :
    (targetGrid : List K) = (List.range 60).map (fun (i : Nat) => -3 + (i : K) * 0.1) := by
  unfold targetGrid d3range
  have h : ((3 : K) - -3) / 0.1 = ((60 : Nat) : K) := by norm_num
  rw [h, Nat.ceil_natCast]

theorem generateTargetDist_length (M : JsMath K) : (generateTargetDist M).length = 60 := by
  unfold generateTargetDist targetDensities
  simp [targetGrid_eq]

theorem lookupIdx_three : lookupIdx (3 : K) = 60 := by
  unfold lookupIdx
  have h : ((3 : K) + 3) / 0.1 = ((60 : Int) : K) := by norm_num
  rw [h, Int.floor_intCast]

theorem importanceWeight_out_of_range (M : JsMath K) (target : List (Point K K)) (x : K)
    (h : ¬ idxInRange target (lookupIdx x)) : importanceWeight M target x = 1 := by
  unfold importanceWeight
  simp only [dif_neg h]

/-- C3, as stated, fails: with the 60-entry table of `generateTargetDist`, the draw `x = 3`
passes the bounds test, has lookup index 60, which is outside the table, and is pushed with
weight 1, not 0. -/
theorem importance_out_of_range_weight_counterexample :
    (generateTargetDist ⟨Real.exp, Real.sqrt, Real.log, Real.cos, Real.pi⟩).length = 60
    ∧ lookupIdx (3 : ℝ) = 60
    ∧ ((3 : ℝ) ≥ -3 ∧ (3 : ℝ) ≤ 3)
    ∧ importancePush ⟨Real.exp, Real.sqrt, Real.log, Real.cos, Real.pi⟩
        (generateTargetDist ⟨Real.exp, Real.sqrt, Real.log, Real.cos, Real.pi⟩) 3 0 []
        = [⟨3, 0, 1⟩]
    ∧ (⟨3, 0, 1⟩ : WeightedSample ℝ).weight ≠ 0 := by
  have hout : ¬ idxInRange (generateTargetDist ⟨Real.exp, Real.sqrt, Real.log, Real.cos, Real.pi⟩)
      (lookupIdx (3 : ℝ)) := by
    unfold idxInRange
    rw [lookupIdx_three, generateTargetDist_length]
    norm_num
  refine ⟨generateTargetDist_length _, lookupIdx_three, by norm_num, ?_, by norm_num⟩
  unfold importancePush
  rw [if_pos (by norm_num), importanceWeight_out_of_range _ _ _ hout]
  norm_num

/-- C3, amended: in importance sampling, a draw `x` that passes the bounds test
`-3 ≤ x ≤ 3` but whose lookup index `floor((x + 3) / 0.1)` lies outside
`[0, target.length)` keeps the default weight 1: the sample `{ x, y, weight: 1 }` is
appended to `newSamples`. -/
theorem importance_out_of_range_weight_one (M : JsMath K) (target : List (Point K K))
    (x r : K) (newSamples : List (WeightedSample K)) (hlo : x ≥ -3) (hhi : x ≤ 3)
    (hidx : ¬ idxInRange target (lookupIdx x)) :
    importanceWeight M target x = 1
    ∧ importancePush M target x r newSamples = newSamples ++ [⟨x, r * 0.1, 1⟩] := by
  refine ⟨importanceWeight_out_of_range M target x hidx, ?_⟩
  unfold importancePush
  rw [if_pos ⟨hlo, hhi⟩, importanceWeight_out_of_range M target x hidx]
  norm_num

/-- Witness for the amended C3: the draw `x = 3` against the 60-entry target table. -/
theorem importance_out_of_range_weight_one_witness :
    ((3 : ℝ) ≥ -3 ∧ (3 : ℝ) ≤ 3
      ∧ ¬ idxInRange (generateTargetDist ⟨Real.exp, Real.sqrt, Real.log, Real.cos, Real.pi⟩)
          (lookupIdx (3 : ℝ)))
    ∧ importanceWeight ⟨Real.exp, Real.sqrt, Real.log, Real.cos, Real.pi⟩
        (generateTargetDist ⟨Real.exp, Real.sqrt, Real.log, Real.cos, Real.pi⟩) 3 = 1
    ∧ importancePush ⟨Real.exp, Real.sqrt, Real.log, Real.cos, Real.pi⟩
        (generateTargetDist ⟨Real.exp, Real.sqrt, Real.log, Real.cos, Real.pi⟩) 3 (1 / 2) []
        = [] ++ [⟨3, 1 / 2 * 0.1, 1⟩] := by
  have hout : ¬ idxInRange (generateTargetDist ⟨Real.exp, Real.sqrt, Real.log, Real.cos, Real.pi⟩)
      (lookupIdx (3 : ℝ)) := by
    unfold idxInRange
    rw [lookupIdx_three, generateTargetDist_length]
    norm_num
  exact ⟨⟨by norm_num, by norm_num, hout⟩,
    importance_out_of_range_weight_one _ _ 3 (1 / 2) [] (by norm_num) (by norm_num) hout⟩

theorem neg_three_mem_targetGrid : (-3 : K) ∈ (targetGrid : List K) := by
  rw [targetGrid_eq]
  exact List.mem_map.mpr ⟨0, by simp, by simp⟩

/-- C4, as stated, fails: at the first grid point `x = -3` the value computed by
`generateTargetDist` before normalisation is `0.6 * exp(-32) + 0.4 * exp(-5)`, strictly
below the mixture with variances 0.5 and 0.8, `0.6 * exp(-16) + 0.4 * exp(-2.5)`. -/
theorem targetMixture_variance_counterexample :
    (-3 : ℝ) ∈ (targetGrid : List ℝ)
    ∧ targetMixture ⟨Real.exp, Real.sqrt, Real.log, Real.cos, Real.pi⟩ (-3 : ℝ)
        = 0.6 * Real.exp (-32) + 0.4 * Real.exp (-5)
    ∧ specMixture ⟨Real.exp, Real.sqrt, Real.log, Real.cos, Real.pi⟩ (-3 : ℝ)
        = 0.6 * Real.exp (-16) + 0.4 * Real.exp (-(5 / 2))
    ∧ targetMixture ⟨Real.exp, Real.sqrt, Real.log, Real.cos, Real.pi⟩ (-3 : ℝ)
        < specMixture ⟨Real.exp, Real.sqrt, Real.log, Real.cos, Real.pi⟩ (-3 : ℝ) := by
  have ht : targetMixture ⟨Real.exp, Real.sqrt, Real.log, Real.cos, Real.pi⟩ (-3 : ℝ)
      = 0.6 * Real.exp (-32) + 0.4 * Real.exp (-5) := by
    unfold targetMixture
    norm_num
  have hs : specMixture ⟨Real.exp, Real.sqrt, Real.log, Real.cos, Real.pi⟩ (-3 : ℝ)
      = 0.6 * Real.exp (-16) + 0.4 * Real.exp (-(5 / 2)) := by
    unfold specMixture
    norm_num
  refine ⟨neg_three_mem_targetGrid, ht, hs, ?_⟩
  rw [ht, hs]
  have h1 : Real.exp (-32) < Real.exp (-16) := Real.exp_lt_exp.mpr (by norm_num)
  have h2 : Real.exp (-5) < Real.exp (-(5 / 2)) := Real.exp_lt_exp.mpr (by norm_num)
  linarith

/-- C4, amended: before normalisation, the target density built by `generateTargetDist`
is a mixture of two Gaussian bumps with weights 0.6 and 0.4, means +1 and -1, and
variances 0.25 and 0.4 (the code divides the squared distance by 0.5 and 0.8): on the 60
grid points `x = -3 + 0.1 * i`,
`y(x) = 0.6 * exp(-(x-1)^2 / (2 * 0.25)) + 0.4 * exp(-(x+1)^2 / (2 * 0.4))`. -/
theorem targetDensities_mixture :
    (targetGrid : List ℝ) = (List.range 60).map (fun (i : Nat) => -3 + (i : ℝ) * 0.1)
    ∧ targetDensities ⟨Real.exp, Real.sqrt, Real.log, Real.cos, Real.pi⟩
      = (targetGrid : List ℝ).map (fun x =>
          0.6 * Real.exp (-(x - 1) ^ 2 / (2 * 0.25))
            + 0.4 * Real.exp (-(x + 1) ^ 2 / (2 * 0.4))) := by
  refine ⟨targetGrid_eq, ?_⟩
  unfold targetDensities
  apply List.map_congr_left
  intro x _
  unfold targetMixture
  norm_num

/-! ## Rejection sampling -/

theorem rejectionStep_samples (rand : Nat → K) (target : List (Point K K))
    (st : RejectionState K) :
    (rejectionStep rand target st).newSamples
      = st.newSamples ++
        (if rejectionAccepts target ⟨rand st.pos * 6 - 3, rand (st.pos + 1)⟩
          then [⟨rand st.pos * 6 - 3, rand (st.pos + 1)⟩] else []) := by
  unfold rejectionStep rejectionAccepts
  dsimp only
  by_cases h : idxInRange target (lookupIdx (rand st.pos * 6 - 3))
  · rw [dif_pos h]
    by_cases hy : rand (st.pos + 1) < tableY target (lookupIdx (rand st.pos * 6 - 3)) h
    · rw [if_pos hy, if_pos ⟨h, hy⟩]
    · rw [if_neg hy, if_neg (fun ⟨_, hy2⟩ => hy hy2)]
      simp
  · rw [dif_neg h, if_neg (fun ⟨h2, _⟩ => h h2)]
    simp

theorem rejectionStep_pos (rand : Nat → K) (target : List (Point K K))
    (st : RejectionState K) : (rejectionStep rand target st).pos = st.pos + 2 := by
  unfold rejectionStep
  dsimp only
  split_ifs <;> rfl

theorem rejectionLoop_invariant (rand : Nat → K) (target : List (Point K K)) (numSamples : Nat)
    (P : RejectionState K → Prop)
    (hstep : ∀ st : RejectionState K, st.newSamples.length < numSamples ∧ st.count < 5000 →
      P st → P (rejectionStep rand target st)) :
    ∀ (m : Nat) (st : RejectionState K), 5000 - st.count = m → P st →
      P (rejectionLoop rand target numSamples st)
      ∧ ¬ ((rejectionLoop rand target numSamples st).newSamples.length < numSamples
          ∧ (rejectionLoop rand target numSamples st).count < 5000) := by
  intro m
  induction m using Nat.strong_induction_on with
  | _ m ih =>
    intro st hm hP
    rw [rejectionLoop]
    by_cases hc : st.newSamples.length < numSamples ∧ st.count < 5000
    · rw [if_pos hc]
      apply ih (5000 - (rejectionStep rand target st).count) _ _ rfl (hstep st hc hP)
      rw [rejectionStep_count]
      omega
    · rw [if_neg hc]
      exact ⟨hP, hc⟩

theorem acceptedAmong_succ (rand : Nat → K) (target : List (Point K K)) (n : Nat) :
    acceptedAmong rand target (n + 1)
      = acceptedAmong rand target n ++
        (if rejectionAccepts target (rejectionProposal rand n)
          then [rejectionProposal rand n] else []) := by
  unfold acceptedAmong
  rw [List.range_succ, List.map_append, List.filter_append]
  congr 1
  by_cases h : rejectionAccepts target (rejectionProposal rand n)
  · simp [h]
  · simp [h]

/-- C8: for every sequence of random draws and every target table, every sample `(x, y)`
returned by the rejection sampler has its index `floor((x + 3) / 0.1)` inside
`[0, target.length)` and `y < target[idx].y`; so no proposal failing the test is in the
result. -/
theorem rejectionSampling_accepted (rand : Nat → K) (target : List (Point K K))
    (s : Sample K) (hs : s ∈ (rejectionSampling rand target).newSamples) :
    ∃ h : 0 ≤ lookupIdx s.x ∧ lookupIdx s.x < (target.length : Int),
      s.y < tableY target (lookupIdx s.x) h := by
  have hinv := (rejectionLoop_invariant rand target 300
    (fun st => ∀ s ∈ st.newSamples, rejectionAccepts target s) (by
      intro st _ hP s hs
      rw [rejectionStep_samples, List.mem_append] at hs
      rcases hs with hs | hs
      · exact hP s hs
      · split_ifs at hs with hacc
        · rw [List.mem_singleton] at hs
          rw [hs]
          exact hacc
        · simp at hs) 5000 ⟨[], 0, 0⟩ rfl (by simp)).1
  exact hinv s hs
theorem rejectionSampling_spec (rand : Nat → K) (target : List (Point K K)) :
    (rejectionSampling rand target).pos = 2 * (rejectionSampling rand target).count
    ∧ (rejectionSampling rand target).count ≤ 5000
    ∧ (rejectionSampling rand target).newSamples
        = acceptedAmong rand target (rejectionSampling rand target).count
    ∧ (rejectionSampling rand target).newSamples.length ≤ 300
    ∧ (∀ m : Nat, m < (rejectionSampling rand target).count →
        (acceptedAmong rand target m).length < 300)
    ∧ ¬ ((rejectionSampling rand target).newSamples.length < 300
        ∧ (rejectionSampling rand target).count < 5000) := by
  have hinv := rejectionLoop_invariant rand target 300
    (fun st => st.pos = 2 * st.count ∧ st.count ≤ 5000
      ∧ st.newSamples = acceptedAmong rand target st.count
      ∧ st.newSamples.length ≤ 300
      ∧ ∀ m : Nat, m < st.count → (acceptedAmong rand target m).length < 300) (by
      rintro st ⟨hlen, hcount⟩ ⟨hpos, _, hacc, _, hbefore⟩
      have hnew : (rejectionStep rand target st).newSamples
          = acceptedAmong rand target (st.count + 1) := by
        rw [rejectionStep_samples, acceptedAmong_succ, hacc, hpos]
        rfl
      refine ⟨?_, ?_, ?_, ?_, ?_⟩
      · rw [rejectionStep_pos, rejectionStep_count, hpos]
        ring
      · rw [rejectionStep_count]
        omega
      · rw [rejectionStep_count]
        exact hnew
      · rw [rejectionStep_samples, List.length_append]
        split_ifs
        · simp only [List.length_singleton]
          omega
        · simp only [List.length_nil]
          omega
      · intro m hm
        rw [rejectionStep_count] at hm
        rcases Nat.lt_succ_iff_lt_or_eq.mp hm with h | h
        · exact hbefore m h
        · rw [h, ← hacc]
          exact hlen) 5000 ⟨[], 0, 0⟩ rfl
    ⟨rfl, by norm_num, by simp [acceptedAmong], by simp, by simp⟩
  obtain ⟨⟨h1, h2, h3, h4, h5⟩, h6⟩ := hinv
  exact ⟨h1, h2, h3, h4, h5, h6⟩

/-- C9: for every sequence of random draws (and every target table), the rejection sampler
terminates having attempted at most 5000 proposals and returns at most 300 samples; the
samples are the accepted ones among the proposals attempted, in order; fewer than 300
were accepted before the last attempt, so the loop stops as soon as 300 are accepted; and
if fewer than 300 samples are returned then exactly 5000 proposals were attempted. -/
theorem rejectionSampling_bounded (rand : Nat → K) (target : List (Point K K)) :
    (rejectionSampling rand target).count ≤ 5000
    ∧ (rejectionSampling rand target).newSamples.length ≤ 300
    ∧ (rejectionSampling rand target).newSamples
        = acceptedAmong rand target (rejectionSampling rand target).count
    ∧ (∀ m : Nat, m < (rejectionSampling rand target).count →
        (acceptedAmong rand target m).length < 300)
    ∧ ((rejectionSampling rand target).newSamples.length = 300
        ∨ (rejectionSampling rand target).count = 5000)
    ∧ ((rejectionSampling rand target).newSamples.length < 300 →
        (rejectionSampling rand target).count = 5000) := by
  obtain ⟨_, h2, h3, h4, h5, h6⟩ := rejectionSampling_spec rand target
  refine ⟨h2, h4, h3, h5, ?_, ?_⟩
  · omega
  · intro hlt
    omega

theorem lookupIdx_neg_three : lookupIdx (-3 : K) = 0 := by
  unfold lookupIdx
  have h : ((-3 : K) + 3) / 0.1 = ((0 : Int) : K) := by norm_num
  rw [h, Int.floor_intCast]

theorem mem_acceptedAmong (rand : Nat → K) (target : List (Point K K)) (n j : Nat)
    (hj : j < n) (hacc : rejectionAccepts target (rejectionProposal rand j)) :
    rejectionProposal rand j ∈ acceptedAmong rand target n := by
  unfold acceptedAmong
  rw [List.mem_filter]
  exact ⟨List.mem_map.mpr ⟨j, List.mem_range.mpr hj, rfl⟩, by simpa using hacc⟩

theorem rejectionSampling_count_pos (rand : Nat → K) (target : List (Point K K)) :
    0 < (rejectionSampling rand target).count := by
  obtain ⟨_, _, h3, _, _, h6⟩ := rejectionSampling_spec rand target
  by_contra hzero
  have h0 : (rejectionSampling rand target).count = 0 := by omega
  rw [h0] at h3
  apply h6
  rw [h3, h0]
  simp [acceptedAmong]

/-- Witness for C8: with first draws 0 and 1/2 and the one-entry table `[(-3, 1)]`, the
first proposal `(-3, 1/2)` is accepted and returned. -/
theorem rejectionSampling_accepted_witness :
    (⟨-3, 1 / 2⟩ : Sample ℚ)
        ∈ (rejectionSampling (fun n => if n = 0 then (0 : ℚ) else 1 / 2) [⟨-3, 1⟩]).newSamples
    ∧ ∃ h : 0 ≤ lookupIdx (⟨-3, 1 / 2⟩ : Sample ℚ).x
          ∧ lookupIdx (⟨-3, 1 / 2⟩ : Sample ℚ).x < (([⟨-3, 1⟩] : List (Point ℚ ℚ)).length : Int),
        (⟨-3, 1 / 2⟩ : Sample ℚ).y
          < tableY [⟨-3, 1⟩] (lookupIdx (⟨-3, 1 / 2⟩ : Sample ℚ).x) h := by
  have hprop : rejectionProposal (fun n => if n = 0 then (0 : ℚ) else 1 / 2) 0
      = (⟨-3, 1 / 2⟩ : Sample ℚ) := by
    unfold rejectionProposal
    norm_num
  have hacc : rejectionAccepts [⟨-3, 1⟩] (⟨-3, 1 / 2⟩ : Sample ℚ) := by
    unfold rejectionAccepts
    have h0 : lookupIdx (-3 : ℚ) = 0 := lookupIdx_neg_three
    refine ⟨by rw [h0]; simp [idxInRange], ?_⟩
    simp only [tableY, h0]
    norm_num
  have hmem : (⟨-3, 1 / 2⟩ : Sample ℚ)
      ∈ (rejectionSampling (fun n => if n = 0 then (0 : ℚ) else 1 / 2) [⟨-3, 1⟩]).newSamples := by
    rw [(rejectionSampling_spec _ _).2.2.1, ← hprop]
    exact mem_acceptedAmong _ _ _ 0 (rejectionSampling_count_pos _ _) (by rw [hprop]; exact hacc)
  exact ⟨hmem, rejectionSampling_accepted _ _ _ hmem⟩

/-! ## Metropolis-Hastings -/

theorem mcmcStep_samples_lt (rand : Nat → K) (target : List (Point K K)) (i : Nat)
    (st : McmcState K) (hi : i < 500) :
    (mcmcStep rand target i st).newSamples = st.newSamples := by
  unfold mcmcStep
  dsimp only
  rw [if_neg (by omega)]

theorem mcmcStep_samples_ge (rand : Nat → K) (target : List (Point K K)) (i : Nat)
    (st : McmcState K) (hi : 500 ≤ i) :
    ∃ y : K, (mcmcStep rand target i st).newSamples
      = st.newSamples ++ [⟨(mcmcStep rand target i st).current, y⟩] := by
  unfold mcmcStep
  dsimp only
  rw [if_pos (by omega)]
  exact ⟨_, rfl⟩

theorem mcmcStep_keeps_or_moves (rand : Nat → K) (target : List (Point K K)) (i : Nat)
    (st : McmcState K) :
    (mcmcStep rand target i st).current = st.current
    ∨ (mcmcStep rand target i st).current = st.current + (rand st.pos - 0.5) * 0.5 := by
  unfold mcmcStep
  dsimp only
  split_ifs <;> simp

theorem mcmcLoop_eq_foldl (rand : Nat → K) (target : List (Point K K)) (n : Nat) :
    ∀ (m i : Nat) (st : McmcState K), i + m = n →
      mcmcLoop rand target n i st
        = (List.range' i m).foldl (fun st j => mcmcStep rand target j st) st := by
  intro m
  induction m with
  | zero =>
    intro i st h
    rw [mcmcLoop, if_neg (by omega)]
    rfl
  | succ m ih =>
    intro i st h
    rw [mcmcLoop, if_pos (by omega), ih (i + 1) _ (by omega)]
    rfl

theorem mcmcAfter_succ (rand : Nat → K) (target : List (Point K K)) (k : Nat) :
    mcmcAfter rand target (k + 1) = mcmcStep rand target k (mcmcAfter rand target k) := by
  unfold mcmcAfter
  rw [List.range_succ, List.foldl_append]
  rfl

theorem mcmcSampling_eq_mcmcAfter (rand : Nat → K) (target : List (Point K K)) :
    mcmcSampling rand target = mcmcAfter rand target 800 := by
  unfold mcmcSampling mcmcAfter
  rw [mcmcLoop_eq_foldl rand target (300 + 500) 800 0 _ (by norm_num), List.range_eq_range']

theorem mcmcAfter_samples (rand : Nat → K) (target : List (Point K K)) (k : Nat) :
    ((mcmcAfter rand target k).newSamples).map (fun s => s.x)
      = (List.range (k - 500)).map (fun j => (mcmcAfter rand target (500 + j + 1)).current) := by
  induction k with
  | zero => simp [mcmcAfter, mcmcInit]
  | succ k ih =>
    rw [mcmcAfter_succ]
    by_cases hk : k < 500
    · rw [mcmcStep_samples_lt _ _ _ _ hk, ih]
      rw [show k + 1 - 500 = 0 by omega, show k - 500 = 0 by omega]
    · obtain ⟨y, hy⟩ := mcmcStep_samples_ge rand target k (mcmcAfter rand target k) (by omega)
      rw [hy, List.map_append, ih, show k + 1 - 500 = (k - 500) + 1 by omega, List.range_succ,
        List.map_append]
      simp only [List.map_cons, List.map_nil]
      rw [show 500 + (k - 500) + 1 = k + 1 by omega, mcmcAfter_succ]

/-- C10: for every sequence of random draws (and every target table), the
Metropolis-Hastings sampler runs the loop body exactly 800 times, for the loop indices
0..799 in order, and returns exactly 300 samples: their `x` are the chain states after
iterations 500, 501, ..., 799 (counted from 0), in order, and after the first 500
iterations no sample has been pushed. -/
theorem mcmcSampling_retains_last_300 (rand : Nat → K) (target : List (Point K K)) :
    mcmcSampling rand target
      = (List.range 800).foldl (fun st i => mcmcStep rand target i st) (mcmcInit rand)
    ∧ (mcmcAfter rand target 500).newSamples = []
    ∧ (mcmcSampling rand target).newSamples.length = 300
    ∧ (mcmcSampling rand target).newSamples.map (fun s => s.x)
        = (List.range 300).map (fun j => (mcmcAfter rand target (500 + j + 1)).current) := by
  have hx := mcmcAfter_samples rand target 800
  have h500 := mcmcAfter_samples rand target 500
  refine ⟨mcmcSampling_eq_mcmcAfter rand target, ?_, ?_, ?_⟩
  · simpa using h500
  · have := congrArg List.length hx
    simpa [mcmcSampling_eq_mcmcAfter] using this
  · rw [mcmcSampling_eq_mcmcAfter]
    exact hx

/-! ## Importance sampling: weights and sample count -/

theorem proposalDensity_pos (x : ℝ) :
    0 < proposalDensity ⟨Real.exp, Real.sqrt, Real.log, Real.cos, Real.pi⟩ x := by
  unfold proposalDensity
  have hs : 0 < Real.sqrt (2 * Real.pi) := Real.sqrt_pos.mpr (by positivity)
  have he := Real.exp_pos (-x ^ 2 / (2 * 1.5 * 1.5))
  positivity

theorem tableY_mem (target : List (Point K K)) (idx : Int) (h : idxInRange target idx) :
    ∃ p ∈ target, tableY target idx h = p.y := by
  unfold tableY
  exact ⟨_, List.get_mem _ _ _, rfl⟩

theorem importanceWeight_nonneg (target : List (Point ℝ ℝ)) (hnonneg : ∀ p ∈ target, 0 ≤ p.y)
    (x : ℝ) :
    0 ≤ importanceWeight ⟨Real.exp, Real.sqrt, Real.log, Real.cos, Real.pi⟩ target x := by
  unfold importanceWeight
  dsimp only
  split_ifs with h
  · obtain ⟨p, hp, hy⟩ := tableY_mem target _ h
    rw [hy]
    exact div_nonneg (hnonneg p hp) (by have := proposalDensity_pos x; positivity)
  · norm_num

theorem importancePush_cases (M : JsMath K) (target : List (Point K K)) (x r : K)
    (newSamples : List (WeightedSample K)) :
    importancePush M target x r newSamples = newSamples
    ∨ ((x ≥ -3 ∧ x ≤ 3) ∧ importancePush M target x r newSamples
        = newSamples ++ [⟨x, r * 0.1, min (importanceWeight M target x) 5⟩]) := by
  unfold importancePush
  split_ifs with h
  · exact Or.inr ⟨h, rfl⟩
  · exact Or.inl rfl

theorem importanceStep_cases (M : JsMath K) (rand : Nat → K) (target : List (Point K K))
    (fuel : Nat) (st st1 : ImportanceState K)
    (h : importanceStep M rand target fuel st = some st1) :
    st1.newSamples = st.newSamples
    ∨ ∃ x r : K, (x ≥ -3 ∧ x ≤ 3)
        ∧ st1.newSamples
          = st.newSamples ++ [⟨x, r * 0.1, min (importanceWeight M target x) 5⟩] := by
  unfold importanceStep at h
  split at h
  · exact absurd h (by simp)
  · split at h
    · exact absurd h (by simp)
    · dsimp only at h
      split_ifs at h with hx
      · rw [Option.some.injEq] at h
        rw [← h]
        rcases importancePush_cases M target _ _ st.newSamples with hp | ⟨hb, hp⟩
        · exact Or.inl hp
        · exact Or.inr ⟨_, _, hb, hp⟩
      · rw [Option.some.injEq] at h
        rw [← h]
        exact Or.inl rfl

theorem importanceLoop_invariant (M : JsMath K) (rand : Nat → K) (target : List (Point K K))
    (fuel : Nat) (P : WeightedSample K → Prop)
    (hP : ∀ x r : K, x ≥ -3 ∧ x ≤ 3 → P ⟨x, r * 0.1, min (importanceWeight M target x) 5⟩) :
    ∀ (n : Nat) (st st1 : ImportanceState K),
      importanceLoop M rand target fuel n st = some st1 →
      (∀ s ∈ st.newSamples, P s) →
      (∀ s ∈ st1.newSamples, P s) ∧ st1.newSamples.length ≤ st.newSamples.length + n := by
  intro n
  induction n with
  | zero =>
    intro st st1 h hst
    rw [importanceLoop, Option.some.injEq] at h
    rw [← h]
    exact ⟨hst, le_rfl⟩
  | succ n ih =>
    intro st st1 h hst
    rw [importanceLoop] at h
    split at h
    · exact absurd h (by simp)
    · rename_i st2 hstep
      have hcases := importanceStep_cases M rand target fuel st st2 hstep
      have hst2 : (∀ s ∈ st2.newSamples, P s)
          ∧ st2.newSamples.length ≤ st.newSamples.length + 1 := by
        rcases hcases with hc | ⟨x, r, hb, hc⟩
        · rw [hc]
          exact ⟨hst, Nat.le_succ _⟩
        · rw [hc]
          refine ⟨?_, by simp⟩
          intro s hs
          rcases List.mem_append.mp hs with hs | hs
          · exact hst s hs
          · rw [List.mem_singleton] at hs
            rw [hs]
            exact hP x r hb
      obtain ⟨h1, h2⟩ := ih st2 st1 h hst2.1
      exact ⟨h1, by omega⟩

theorem drawNonzero_returns (rand : Nat → K) :
    ∀ (fuel pos : Nat), (∃ j : Nat, j < fuel ∧ rand (pos + j) ≠ 0) →
      ∃ r : K × Nat, drawNonzero rand fuel pos = some r := by
  intro fuel
  induction fuel with
  | zero =>
    rintro pos ⟨j, hj, _⟩
    omega
  | succ f ih =>
    rintro pos ⟨j, hj, hne⟩
    rw [drawNonzero]
    split_ifs with h0
    · apply ih
      cases j with
      | zero => exact absurd h0 (by simpa using hne)
      | succ j => exact ⟨j, by omega, by rwa [show pos + 1 + j = pos + (j + 1) by omega]⟩
    · exact ⟨_, rfl⟩

theorem importanceStep_returns (M : JsMath K) (rand : Nat → K) (target : List (Point K K))
    (fuel : Nat) (hdraw : ∀ pos : Nat, ∃ j : Nat, j < fuel ∧ rand (pos + j) ≠ 0)
    (st : ImportanceState K) :
    ∃ st1 : ImportanceState K, importanceStep M rand target fuel st = some st1 := by
  unfold importanceStep
  obtain ⟨⟨u, pos1⟩, hu⟩ := drawNonzero_returns rand fuel st.pos (hdraw st.pos)
  obtain ⟨⟨v, pos2⟩, hv⟩ := drawNonzero_returns rand fuel pos1 (hdraw pos1)
  rw [hu]
  dsimp only
  rw [hv]
  dsimp only
  split_ifs
  · exact ⟨_, rfl⟩
  · exact ⟨_, rfl⟩

theorem importanceLoop_returns (M : JsMath K) (rand : Nat → K) (target : List (Point K K))
    (fuel : Nat) (hdraw : ∀ pos : Nat, ∃ j : Nat, j < fuel ∧ rand (pos + j) ≠ 0) :
    ∀ (n : Nat) (st : ImportanceState K),
      ∃ st1 : ImportanceState K, importanceLoop M rand target fuel n st = some st1 := by
  intro n
  induction n with
  | zero => exact fun st => ⟨st, rfl⟩
  | succ n ih =>
    intro st
    obtain ⟨st2, h2⟩ := importanceStep_returns M rand target fuel hdraw st
    rw [importanceLoop, h2]
    exact ih st2

/-! ## Normalisation of the target table -/

theorem foldl_max_spec (as : List K) :
    ∀ a : K, (as.foldl max a ∈ a :: as) ∧ ∀ b ∈ a :: as, b ≤ as.foldl max a := by
  induction as with
  | nil =>
    intro a
    simp
  | cons c cs ih =>
    intro a
    rw [List.foldl_cons]
    obtain ⟨hmem, hle⟩ := ih (max a c)
    constructor
    · rcases List.mem_cons.mp hmem with h | h
      · rw [h]
        rcases max_choice a c with hm | hm
        · rw [hm]
          exact List.mem_cons_self _ _
        · rw [hm]
          exact List.mem_cons_of_mem _ (List.mem_cons_self _ _)
      · exact List.mem_cons_of_mem _ (List.mem_cons_of_mem _ h)
    · intro b hb
      have hmax := hle (max a c) (List.mem_cons_self _ _)
      rcases List.mem_cons.mp hb with h | h
      · rw [h]
        exact le_trans (le_max_left a c) hmax
      · rcases List.mem_cons.mp h with h | h
        · rw [h]
          exact le_trans (le_max_right a c) hmax
        · exact hle b (List.mem_cons_of_mem _ h)

theorem mathMax_mem (l : List K) (hl : l ≠ []) : mathMax l ∈ l := by
  cases l with
  | nil => exact absurd rfl hl
  | cons a as => exact (foldl_max_spec as a).1

theorem le_mathMax (l : List K) (b : K) (hb : b ∈ l) : b ≤ mathMax l := by
  cases l with
  | nil => simp at hb
  | cons a as => exact (foldl_max_spec as a).2 b hb

theorem zipWith_map_self {α β γ : Type} (g : α → β → γ) (f : α → β) (l : List α) :
    List.zipWith g l (l.map f) = l.map (fun a => g a (f a)) := by
  induction l with
  | nil => rfl
  | cons a as ih => simp [ih]

theorem generateTargetDist_eq (M : JsMath K) :
    generateTargetDist M
      = (targetGrid : List K).map
          (fun val => (⟨val, targetMixture M val / mathMax (targetDensities M)⟩ : Point K K)) := by
  unfold generateTargetDist
  dsimp only
  unfold targetDensities
  rw [List.map_map, zipWith_map_self]
  rfl

theorem targetMixture_pos (x : ℝ) :
    0 < targetMixture ⟨Real.exp, Real.sqrt, Real.log, Real.cos, Real.pi⟩ x := by
  unfold targetMixture
  dsimp only
  have h1 := Real.exp_pos (-(x - 1) ^ 2 / 0.5)
  have h2 := Real.exp_pos (-(x + 1) ^ 2 / 0.8)
  positivity

theorem targetDensities_ne_nil (M : JsMath K) : targetDensities M ≠ [] := by
  unfold targetDensities
  rw [targetGrid_eq]
  simp

theorem mathMax_targetDensities_pos :
    0 < mathMax (targetDensities ⟨Real.exp, Real.sqrt, Real.log, Real.cos, Real.pi⟩) := by
  have hmem := mathMax_mem _
    (targetDensities_ne_nil (⟨Real.exp, Real.sqrt, Real.log, Real.cos, Real.pi⟩ : JsMath ℝ))
  unfold targetDensities at hmem
  obtain ⟨x, _, hx⟩ := List.mem_map.mp hmem
  unfold targetDensities
  rw [← hx]
  exact targetMixture_pos x

theorem generateTargetDist_y_bounds (p : Point ℝ ℝ)
    (hp : p ∈ generateTargetDist ⟨Real.exp, Real.sqrt, Real.log, Real.cos, Real.pi⟩) :
    0 < p.y ∧ p.y ≤ 1 := by
  rw [generateTargetDist_eq] at hp
  obtain ⟨x, hx, rfl⟩ := List.mem_map.mp hp
  have hmax := mathMax_targetDensities_pos
  have hle : targetMixture ⟨Real.exp, Real.sqrt, Real.log, Real.cos, Real.pi⟩ x
      ≤ mathMax (targetDensities ⟨Real.exp, Real.sqrt, Real.log, Real.cos, Real.pi⟩) :=
    le_mathMax _ _ (List.mem_map.mpr ⟨x, hx, rfl⟩)
  exact ⟨div_pos (targetMixture_pos x) hmax, (div_le_one hmax).mpr hle⟩

/-- C12: the target table built by `generateTargetDist` has 60 entries, entry `i` has
`x = -3 + i * 0.1` for `i = 0..59`, and it is normalised so that its maximum `y` is exactly
1: some entry has `y = 1` and every entry has `0 < y ≤ 1`. -/
theorem generateTargetDist_normalised :
    (generateTargetDist ⟨Real.exp, Real.sqrt, Real.log, Real.cos, Real.pi⟩).length = 60
    ∧ (∀ i : Nat, i < 60 →
        ((generateTargetDist ⟨Real.exp, Real.sqrt, Real.log, Real.cos, Real.pi⟩).map
          (fun p => p.x))[i]? = some (-3 + (i : ℝ) * 0.1))
    ∧ (∃ p ∈ generateTargetDist ⟨Real.exp, Real.sqrt, Real.log, Real.cos, Real.pi⟩, p.y = 1)
    ∧ (∀ p ∈ generateTargetDist ⟨Real.exp, Real.sqrt, Real.log, Real.cos, Real.pi⟩,
        0 < p.y ∧ p.y ≤ 1) := by
  refine ⟨generateTargetDist_length _, ?_, ?_, generateTargetDist_y_bounds⟩
  · intro i hi
    rw [generateTargetDist_eq, List.map_map, targetGrid_eq, List.map_map, List.getElem?_map,
      List.getElem?_range hi]
    rfl
  · have hmem := mathMax_mem _
      (targetDensities_ne_nil (⟨Real.exp, Real.sqrt, Real.log, Real.cos, Real.pi⟩ : JsMath ℝ))
    have hmax := mathMax_targetDensities_pos
    rw [targetDensities] at hmem
    obtain ⟨x, hx, hxm⟩ := List.mem_map.mp hmem
    refine ⟨⟨x, targetMixture ⟨Real.exp, Real.sqrt, Real.log, Real.cos, Real.pi⟩ x
      / mathMax (targetDensities ⟨Real.exp, Real.sqrt, Real.log, Real.cos, Real.pi⟩)⟩, ?_, ?_⟩
    · rw [generateTargetDist_eq]
      exact List.mem_map.mpr ⟨x, hx, rfl⟩
    · show targetMixture ⟨Real.exp, Real.sqrt, Real.log, Real.cos, Real.pi⟩ x
        / mathMax (targetDensities ⟨Real.exp, Real.sqrt, Real.log, Real.cos, Real.pi⟩) = 1
      rw [hxm]
      exact div_self hmax.ne'

/-- C11: for every sequence of random draws and every target table with non-negative `y`
values, whenever the importance sampler returns, it returns at most 300 samples, and every
returned sample has a weight `w` with `0 ≤ w ≤ 5` and `-3 ≤ x ≤ 3`; and it does return as
soon as the budget of each `while` loop covers the longest run of zero draws. -/
theorem importanceSampling_weights (rand : Nat → ℝ) (target : List (Point ℝ ℝ))
    (hnonneg : ∀ p ∈ target, 0 ≤ p.y) (fuel : Nat) :
    (∀ st : ImportanceState ℝ,
      importanceSampling ⟨Real.exp, Real.sqrt, Real.log, Real.cos, Real.pi⟩ rand target fuel
        = some st →
      st.newSamples.length ≤ 300
      ∧ ∀ s ∈ st.newSamples, (0 ≤ s.weight ∧ s.weight ≤ 5) ∧ (-3 ≤ s.x ∧ s.x ≤ 3))
    ∧ ((∀ pos : Nat, ∃ j : Nat, j < fuel ∧ rand (pos + j) ≠ 0) →
      ∃ st : ImportanceState ℝ,
        importanceSampling ⟨Real.exp, Real.sqrt, Real.log, Real.cos, Real.pi⟩ rand target fuel
          = some st) := by
  constructor
  · intro st hst
    have hinv := importanceLoop_invariant ⟨Real.exp, Real.sqrt, Real.log, Real.cos, Real.pi⟩
      rand target fuel
      (fun s => (0 ≤ s.weight ∧ s.weight ≤ 5) ∧ (-3 ≤ s.x ∧ s.x ≤ 3))
      (fun x r hb => ⟨⟨le_min (importanceWeight_nonneg target hnonneg x) (by norm_num),
        min_le_right _ _⟩, hb⟩)
      300 ⟨0, []⟩ st hst (by simp)
    exact ⟨by simpa using hinv.2, hinv.1⟩
  · intro hdraw
    exact importanceLoop_returns _ rand target fuel hdraw 300 ⟨0, []⟩

/-- Witness for C11: every draw equal to 1/2, the table of `generateTargetDist`, and a
budget of one iteration for each `while` loop. -/
theorem importanceSampling_weights_witness :
    (∀ p ∈ generateTargetDist ⟨Real.exp, Real.sqrt, Real.log, Real.cos, Real.pi⟩, 0 ≤ p.y)
    ∧ (∀ pos : Nat, ∃ j : Nat, j < 1 ∧ (fun _ : Nat => (1 / 2 : ℝ)) (pos + j) ≠ 0)
    ∧ ∃ st : ImportanceState ℝ,
        importanceSampling ⟨Real.exp, Real.sqrt, Real.log, Real.cos, Real.pi⟩
          (fun _ => 1 / 2)
          (generateTargetDist ⟨Real.exp, Real.sqrt, Real.log, Real.cos, Real.pi⟩) 1 = some st
        ∧ st.newSamples.length ≤ 300
        ∧ ∀ s ∈ st.newSamples, (0 ≤ s.weight ∧ s.weight ≤ 5) ∧ (-3 ≤ s.x ∧ s.x ≤ 3) := by
  have hnonneg : ∀ p ∈ generateTargetDist ⟨Real.exp, Real.sqrt, Real.log, Real.cos, Real.pi⟩,
      0 ≤ p.y := fun p hp => (generateTargetDist_y_bounds p hp).1.le
  have hdraw : ∀ pos : Nat, ∃ j : Nat, j < 1 ∧ (fun _ : Nat => (1 / 2 : ℝ)) (pos + j) ≠ 0 :=
    fun _ => ⟨0, by norm_num, by norm_num⟩
  have h := importanceSampling_weights (fun _ => 1 / 2)
    (generateTargetDist ⟨Real.exp, Real.sqrt, Real.log, Real.cos, Real.pi⟩) hnonneg 1
  obtain ⟨st, hst⟩ := h.2 hdraw
  exact ⟨hnonneg, hdraw, st, hst, h.1 st hst⟩

/-! ## Poisson mass function -/

theorem poissonDenominatorLoop_factorial (k : Nat) (m : Nat) :
    ∀ i : Nat, 1 ≤ i → i + m = k + 1 →
      poissonDenominatorLoop k i (((i - 1).factorial : Nat) : K) = ((k.factorial : Nat) : K) := by
  induction m with
  | zero =>
    intro i _ him
    rw [poissonDenominatorLoop, if_neg (by omega)]
    rw [show i - 1 = k by omega]
  | succ m ih =>
    intro i hi him
    rw [poissonDenominatorLoop, if_pos (by omega)]
    have hfact : (((i - 1).factorial : Nat) : K) * (i : K) = (((i + 1 - 1).factorial : Nat) : K) := by
      obtain ⟨j, rfl⟩ : ∃ j, i = j + 1 := ⟨i - 1, by omega⟩
      simp only [Nat.add_sub_cancel]
      rw [Nat.factorial_succ]
      push_cast
      ring
    rw [hfact]
    exact ih (i + 1) (by omega) (by omega)

theorem poissonDenominatorLoop_eq (k : Nat) :
    poissonDenominatorLoop k 2 (1 : K) = ((k.factorial : Nat) : K) := by
  rcases Nat.lt_or_ge k 1 with hk | hk
  · have h0 : k = 0 := by omega
    subst h0
    rw [poissonDenominatorLoop, if_neg (by omega)]
    simp
  · have h := poissonDenominatorLoop_factorial (K := K) k (k - 1) 2 (by omega) (by omega)
    simpa using h

theorem generatePoissonLoop_eq (M : JsMath K) (lambda : K) (n : Nat) (m : Nat) :
    ∀ (k : Nat) (data : List (Point Nat K)), k + m = n + 1 →
      generatePoissonLoop M lambda (n : Int) k data
        = data ++ (List.range m).map (fun j => ⟨k + j, poissonPmf M lambda (k + j)⟩) := by
  induction m with
  | zero =>
    intro k data hk
    rw [generatePoissonLoop, if_neg (by omega)]
    simp
  | succ m ih =>
    intro k data hk
    rw [generatePoissonLoop, if_pos (by omega), ih (k + 1) _ (by omega)]
    rw [List.range_succ_eq_map, List.map_cons, List.map_map]
    simp only [List.append_assoc, List.singleton_append, Nat.add_zero]
    congr 2
    apply List.map_congr_left
    intro j _
    simp only [Function.comp, Nat.succ_eq_add_one]
    rw [show k + 1 + j = k + (j + 1) by omega]

theorem poisson_maxK_eq (lambda : ℝ) (h : 0 < lambda) :
    min (20 : Int) ⌈lambda * 3⌉ = (((min (20 : Int) ⌈lambda * 3⌉).toNat : Nat) : Int)
    ∧ 1 ≤ (min (20 : Int) ⌈lambda * 3⌉).toNat := by
  have hc : (1 : Int) ≤ ⌈lambda * 3⌉ := by
    rw [Int.one_le_ceil_iff]
    positivity
  have hm : (1 : Int) ≤ min (20 : Int) ⌈lambda * 3⌉ := le_min (by norm_num) hc
  omega

theorem generatePoissonData_eq (lambda : ℝ) (h : 0 < lambda) :
    generatePoissonData ⟨Real.exp, Real.sqrt, Real.log, Real.cos, Real.pi⟩ lambda
      = (List.range ((min (20 : Int) ⌈lambda * 3⌉).toNat + 1)).map
          (fun k => (⟨k, lambda ^ k * Real.exp (-lambda) / ((k.factorial : Nat) : ℝ)⟩ :
            Point Nat ℝ)) := by
  unfold generatePoissonData
  dsimp only
  obtain ⟨N, hN⟩ : ∃ N : Nat, min (20 : Int) ⌈lambda * 3⌉ = (N : Int) :=
    ⟨_, (poisson_maxK_eq lambda h).1⟩
  rw [hN, generatePoissonLoop_eq _ lambda N (N + 1) 0 [] (by omega)]
  simp only [List.nil_append, Nat.zero_add, Int.toNat_ofNat]
  apply List.map_congr_left
  intro k _
  unfold poissonPmf
  dsimp only
  rw [poissonDenominatorLoop_eq]
theorem poisson_sum_eq (lambda : ℝ) (n : Nat) :
    (((List.range n).map (fun k => (⟨k, lambda ^ k * Real.exp (-lambda)
        / ((k.factorial : Nat) : ℝ)⟩ : Point Nat ℝ))).map (fun pt => pt.y)).sum
      = Real.exp (-lambda) * ∑ k in Finset.range n, lambda ^ k / ((k.factorial : Nat) : ℝ) := by
  rw [List.map_map, sum_map_range_eq, Finset.mul_sum]
  apply Finset.sum_congr rfl
  intro k _
  simp only [Function.comp]
  ring

theorem exp_series_split (lambda : ℝ) (n : Nat) :
    ∑ k in Finset.range n, lambda ^ k / ((k.factorial : Nat) : ℝ)
      + tsum (fun i : Nat => lambda ^ (i + n) / (((i + n).factorial : Nat) : ℝ))
      = Real.exp lambda := by
  have h := sum_add_tsum_nat_add n (Real.summable_pow_div_factorial lambda)
  rw [h, Real.exp_eq_exp_ℝ, NormedSpace.exp_eq_tsum_div]

/-- C14: for every `λ > 0`, `generatePoissonData(λ)` returns the points `k = 0..maxK` with
`maxK = min(20, ceil(3λ))`, each with `y = λ^k * exp(-λ) / k!` (the iterative product
computes exactly `k!`); the sum of the returned probabilities is positive and at most 1,
and it falls short of 1 exactly by the truncated tail `exp(-λ) * Σ_{k > maxK} λ^k / k!`. -/
theorem generatePoissonData_pmf (lambda : ℝ) (h : 0 < lambda) :
    generatePoissonData ⟨Real.exp, Real.sqrt, Real.log, Real.cos, Real.pi⟩ lambda
      = (List.range ((min (20 : Int) ⌈lambda * 3⌉).toNat + 1)).map
          (fun k => (⟨k, lambda ^ k * Real.exp (-lambda) / ((k.factorial : Nat) : ℝ)⟩ :
            Point Nat ℝ))
    ∧ (∀ k : Nat, poissonDenominatorLoop k 2 (1 : ℝ) = ((k.factorial : Nat) : ℝ))
    ∧ 0 < ((generatePoissonData ⟨Real.exp, Real.sqrt, Real.log, Real.cos, Real.pi⟩ lambda).map
        (fun pt => pt.y)).sum
    ∧ ((generatePoissonData ⟨Real.exp, Real.sqrt, Real.log, Real.cos, Real.pi⟩ lambda).map
        (fun pt => pt.y)).sum ≤ 1
    ∧ ((generatePoissonData ⟨Real.exp, Real.sqrt, Real.log, Real.cos, Real.pi⟩ lambda).map
        (fun pt => pt.y)).sum
      + Real.exp (-lambda) * tsum (fun i : Nat =>
          lambda ^ (i + ((min (20 : Int) ⌈lambda * 3⌉).toNat + 1))
            / (((i + ((min (20 : Int) ⌈lambda * 3⌉).toNat + 1)).factorial : Nat) : ℝ))
      = 1 := by
  have hsplit := exp_series_split lambda ((min (20 : Int) ⌈lambda * 3⌉).toNat + 1)
  have hone : Real.exp (-lambda) * Real.exp lambda = 1 := by
    rw [← Real.exp_add]
    simp
  have hpos : 0 < ∑ k in Finset.range ((min (20 : Int) ⌈lambda * 3⌉).toNat + 1),
      lambda ^ k / ((k.factorial : Nat) : ℝ) := by
    apply Finset.sum_pos
    · intro k _
      have : 0 < ((k.factorial : Nat) : ℝ) := by exact_mod_cast Nat.factorial_pos k
      positivity
    · exact ⟨0, by simp⟩
  have hle := Real.sum_le_exp_of_nonneg h.le ((min (20 : Int) ⌈lambda * 3⌉).toNat + 1)
  have hexp := Real.exp_pos (-lambda)
  refine ⟨generatePoissonData_eq lambda h, fun k => poissonDenominatorLoop_eq k, ?_, ?_, ?_⟩
  · rw [generatePoissonData_eq lambda h, poisson_sum_eq]
    positivity
  · rw [generatePoissonData_eq lambda h, poisson_sum_eq, ← hone]
    exact mul_le_mul_of_nonneg_left hle hexp.le
  · rw [generatePoissonData_eq lambda h, poisson_sum_eq, ← mul_add, hsplit, hone]

/-- Witness for C14, at `λ = 5` (the initial slider position). -/
theorem generatePoissonData_pmf_witness :
    (0 : ℝ) < 5
    ∧ 0 < ((generatePoissonData ⟨Real.exp, Real.sqrt, Real.log, Real.cos, Real.pi⟩ 5).map
        (fun pt => pt.y)).sum
    ∧ ((generatePoissonData ⟨Real.exp, Real.sqrt, Real.log, Real.cos, Real.pi⟩ 5).map
        (fun pt => pt.y)).sum ≤ 1 :=
  ⟨by norm_num, (generatePoissonData_pmf 5 (by norm_num)).2.2.1,
    (generatePoissonData_pmf 5 (by norm_num)).2.2.2.1⟩

/-! ## Bivariate normal density grid -/

theorem gridWrite_get (st : GridState K) (v : K) (j : Nat) :
    (gridWrite st v).i = st.i + 1
    ∧ (gridWrite st v).z.length = st.z.length
    ∧ (gridWrite st v).z[j]?
        = if st.i = j ∧ j < st.z.length then some (some v) else st.z[j]? := by
  unfold gridWrite
  refine ⟨rfl, by simp, ?_⟩
  simp only [List.getElem?_set]
  by_cases hj : st.i = j
  · subst hj
    by_cases hl : st.i < st.z.length
    · simp [hl]
    · have hnone : st.z[st.i]? = none := List.getElem?_eq_none (by omega)
      simp [hl, hnone]
  · simp [hj]

theorem gridRow_fill (g : Nat → K) (m : Nat) :
    ∀ st : GridState K,
      ((List.range m).foldl (fun st xi => gridWrite st (g xi)) st).i = st.i + m
      ∧ ((List.range m).foldl (fun st xi => gridWrite st (g xi)) st).z.length = st.z.length
      ∧ ∀ j : Nat, ((List.range m).foldl (fun st xi => gridWrite st (g xi)) st).z[j]?
          = if st.i ≤ j ∧ j < st.i + m ∧ j < st.z.length then some (some (g (j - st.i)))
            else st.z[j]? := by
  induction m with
  | zero =>
    intro st
    refine ⟨rfl, rfl, fun j => ?_⟩
    rw [if_neg (by omega)]
    rfl
  | succ m ih =>
    intro st
    obtain ⟨hi, hlen, hget⟩ := ih st
    rw [List.range_succ, List.foldl_append]
    simp only [List.foldl_cons, List.foldl_nil]
    generalize (List.range m).foldl (fun st xi => gridWrite st (g xi)) st = st1 at hi hlen hget ⊢
    refine ⟨?_, ?_, fun j => ?_⟩
    · rw [(gridWrite_get st1 (g m) 0).1, hi]
      omega
    · rw [(gridWrite_get st1 (g m) 0).2.1, hlen]
    · rw [(gridWrite_get st1 (g m) j).2.2, hi, hlen, hget]
      by_cases hj : st.i + m = j ∧ j < st.z.length
      · rw [if_pos hj, if_pos ⟨by omega, by omega, hj.2⟩]
        rw [show j - st.i = m by omega]
      · rw [if_neg hj]
        by_cases hc : st.i ≤ j ∧ j < st.i + m ∧ j < st.z.length
        · rw [if_pos hc, if_pos ⟨hc.1, by omega, hc.2.2⟩]
        · rw [if_neg hc, if_neg (show ¬ (st.i ≤ j ∧ j < st.i + (m + 1) ∧ j < st.z.length) by omega)]

theorem gridFill (g : Nat → Nat → K) (n : Nat) (m : Nat) (hm : m ≤ n) :
    ((List.range m).foldl
        (fun st yi => (List.range n).foldl (fun st xi => gridWrite st (g xi yi)) st)
        (⟨List.replicate (n * n) none, 0⟩ : GridState K)).i = m * n
    ∧ ((List.range m).foldl
        (fun st yi => (List.range n).foldl (fun st xi => gridWrite st (g xi yi)) st)
        (⟨List.replicate (n * n) none, 0⟩ : GridState K)).z.length = n * n
    ∧ ∀ j : Nat, ((List.range m).foldl
        (fun st yi => (List.range n).foldl (fun st xi => gridWrite st (g xi yi)) st)
        (⟨List.replicate (n * n) none, 0⟩ : GridState K)).z[j]?
          = if j < m * n then some (some (g (j % n) (j / n)))
            else if j < n * n then some none else none := by
  induction m with
  | zero =>
    refine ⟨by simp, by simp, fun j => ?_⟩
    simp only [List.range_zero, List.foldl_nil, Nat.zero_mul, Nat.not_lt_zero, if_false]
    by_cases hj : j < n * n
    · rw [if_pos hj, List.getElem?_replicate, if_pos hj]
    · rw [if_neg hj, List.getElem?_replicate, if_neg hj]
  | succ m ih =>
    obtain ⟨hi, hlen, hget⟩ := ih (by omega)
    rw [List.range_succ, List.foldl_append]
    simp only [List.foldl_cons, List.foldl_nil]
    generalize (List.range m).foldl
        (fun st yi => (List.range n).foldl (fun st xi => gridWrite st (g xi yi)) st)
        (⟨List.replicate (n * n) none, 0⟩ : GridState K) = st1 at hi hlen hget ⊢
    obtain ⟨hi2, hlen2, hget2⟩ := gridRow_fill (fun xi => g xi m) n st1
    have hmn : (m + 1) * n = m * n + n := Nat.succ_mul m n
    have hle : (m + 1) * n ≤ n * n := Nat.mul_le_mul_right n hm
    refine ⟨?_, ?_, fun j => ?_⟩
    · rw [hi2, hi, hmn]
    · rw [hlen2, hlen]
    · rw [hget2, hi, hlen, hget]
      by_cases hrow : m * n ≤ j ∧ j < m * n + n ∧ j < n * n
      · rw [if_pos hrow, if_pos (show j < (m + 1) * n by omega)]
        have hdiv : j / n = m := Nat.div_eq_of_lt_le hrow.1 (by omega)
        have hmod : j % n = j - m * n := by
          have h := Nat.div_add_mod j n
          rw [hdiv, Nat.mul_comm] at h
          omega
        rw [hdiv, hmod]
      · rw [if_neg hrow]
        by_cases hlt : j < m * n
        · rw [if_pos hlt, if_pos (show j < (m + 1) * n by omega)]
        · rw [if_neg hlt, if_neg (show ¬ j < (m + 1) * n by omega)]

theorem densityGrid_eq (M : JsMath K) :
    densityGrid M
      = (List.range 50).foldl
          (fun st yi => (List.range 50).foldl
            (fun st xi => gridWrite st
              (bivariateDensity M ((d3range (-3 : K) 3 (6 / ((50 : Nat) : K))).getD xi 0)
                ((d3range (-3 : K) 3 (6 / ((50 : Nat) : K))).getD yi 0))) st)
          (⟨List.replicate (50 * 50) none, 0⟩ : GridState K) := by
  unfold densityGrid gridRow gridCell
  rfl

theorem bivariateDensity_eq (x y : ℝ) :
    bivariateDensity ⟨Real.exp, Real.sqrt, Real.log, Real.cos, Real.pi⟩ x y
      = 1 / (2 * Real.pi * Real.sqrt (1 - 0.7 ^ 2))
        * Real.exp (-1 / (2 * (1 - 0.7 ^ 2)) * (x ^ 2 + y ^ 2 - 2 * 0.7 * x * y)) := by
  unfold bivariateDensity
  simp only [sub_zero, div_one, mul_one]
  norm_num

theorem bivariateDensity_le_peak (x y : ℝ) :
    bivariateDensity ⟨Real.exp, Real.sqrt, Real.log, Real.cos, Real.pi⟩ x y
      ≤ 1 / (2 * Real.pi * Real.sqrt (1 - 0.7 ^ 2)) := by
  rw [bivariateDensity_eq]
  have hc : 0 ≤ 1 / (2 * Real.pi * Real.sqrt (1 - 0.7 ^ 2)) := by positivity
  have hq : 0 ≤ x ^ 2 + y ^ 2 - 2 * 0.7 * x * y := by
    nlinarith [sq_nonneg (x - 0.7 * y), sq_nonneg y]
  have he : Real.exp (-1 / (2 * (1 - 0.7 ^ 2)) * (x ^ 2 + y ^ 2 - 2 * 0.7 * x * y)) ≤ 1 := by
    rw [Real.exp_le_one_iff]
    have hneg : (-1 / (2 * (1 - 0.7 ^ 2)) : ℝ) ≤ 0 := by norm_num
    exact mul_nonpos_of_nonpos_of_nonneg hneg hq
  simpa using mul_le_mul_of_nonneg_left he hc

theorem bivariateDensity_centre :
    bivariateDensity ⟨Real.exp, Real.sqrt, Real.log, Real.cos, Real.pi⟩ 0 0
      = 1 / (2 * Real.pi * Real.sqrt (1 - 0.7 ^ 2)) := by
  rw [bivariateDensity_eq]
  simp

theorem gridAxis_getD (k : Nat) (hk : k < 50) :
    (d3range (-3 : ℝ) 3 (6 / ((50 : Nat) : ℝ))).getD k 0 = -3 + 0.12 * (k : ℝ) := by
  unfold d3range
  have h : ((3 : ℝ) - -3) / (6 / ((50 : Nat) : ℝ)) = ((50 : Nat) : ℝ) := by norm_num
  rw [h, Nat.ceil_natCast, List.getD_eq_getElem?_getD, List.getElem?_map,
    List.getElem?_range hk]
  simp only [Option.map_some', Option.getD_some]
  norm_num
  ring

theorem densityGrid_get (j : Nat) :
    (densityGrid ⟨Real.exp, Real.sqrt, Real.log, Real.cos, Real.pi⟩).z[j]?
      = if j < 50 * 50 then
          some (some (bivariateDensity ⟨Real.exp, Real.sqrt, Real.log, Real.cos, Real.pi⟩
            ((d3range (-3 : ℝ) 3 (6 / ((50 : Nat) : ℝ))).getD (j % 50) 0)
            ((d3range (-3 : ℝ) 3 (6 / ((50 : Nat) : ℝ))).getD (j / 50) 0)))
        else if j < 50 * 50 then some none else none := by
  rw [densityGrid_eq]
  exact (gridFill (fun xi yi =>
      bivariateDensity ⟨Real.exp, Real.sqrt, Real.log, Real.cos, Real.pi⟩
        ((d3range (-3 : ℝ) 3 (6 / ((50 : Nat) : ℝ))).getD xi 0)
        ((d3range (-3 : ℝ) 3 (6 / ((50 : Nat) : ℝ))).getD yi 0)) 50 50 le_rfl).2.2 j

theorem densityGrid_size :
    (densityGrid ⟨Real.exp, Real.sqrt, Real.log, Real.cos, Real.pi⟩).i = 50 * 50
    ∧ (densityGrid ⟨Real.exp, Real.sqrt, Real.log, Real.cos, Real.pi⟩).z.length = 50 * 50 := by
  rw [densityGrid_eq]
  exact ⟨(gridFill (fun xi yi =>
      bivariateDensity ⟨Real.exp, Real.sqrt, Real.log, Real.cos, Real.pi⟩
        ((d3range (-3 : ℝ) 3 (6 / ((50 : Nat) : ℝ))).getD xi 0)
        ((d3range (-3 : ℝ) 3 (6 / ((50 : Nat) : ℝ))).getD yi 0)) 50 50 le_rfl).1,
   (gridFill (fun xi yi =>
      bivariateDensity ⟨Real.exp, Real.sqrt, Real.log, Real.cos, Real.pi⟩
        ((d3range (-3 : ℝ) 3 (6 / ((50 : Nat) : ℝ))).getD xi 0)
        ((d3range (-3 : ℝ) 3 (6 / ((50 : Nat) : ℝ))).getD yi 0)) 50 50 le_rfl).2.1⟩

theorem densityGrid_cell (yi xi : Nat) (hy : yi < 50) (hx : xi < 50) :
    (densityGrid ⟨Real.exp, Real.sqrt, Real.log, Real.cos, Real.pi⟩).z[yi * 50 + xi]?
      = some (some (bivariateDensity ⟨Real.exp, Real.sqrt, Real.log, Real.cos, Real.pi⟩
          (-3 + 0.12 * (xi : ℝ)) (-3 + 0.12 * (yi : ℝ)))) := by
  rw [densityGrid_get, if_pos (by omega)]
  rw [show (yi * 50 + xi) % 50 = xi by omega, show (yi * 50 + xi) / 50 = yi by omega,
    gridAxis_getD xi hx, gridAxis_getD yi hy]

/-- C13: the nested loops of `mlti.jsx` fill all 2500 slots of `z`, the value for the grid
point `(x[xi], y[yi]) = (-3 + 0.12 * xi, -3 + 0.12 * yi)` being stored at `z[yi * 50 + xi]`;
the grid point with `xi = yi = 25` is `(0, 0)`, the value stored there, `z[25 * 50 + 25]`,
equals `1 / (2π * sqrt(1 - ρ²))` with `ρ = 0.7`, and no value of `z` exceeds it. -/
theorem densityGrid_centre_is_peak :
    (densityGrid ⟨Real.exp, Real.sqrt, Real.log, Real.cos, Real.pi⟩).z.length = 2500
    ∧ (∀ yi xi : Nat, yi < 50 → xi < 50 →
        (densityGrid ⟨Real.exp, Real.sqrt, Real.log, Real.cos, Real.pi⟩).z[yi * 50 + xi]?
          = some (some (bivariateDensity ⟨Real.exp, Real.sqrt, Real.log, Real.cos, Real.pi⟩
              (-3 + 0.12 * (xi : ℝ)) (-3 + 0.12 * (yi : ℝ)))))
    ∧ (-3 + 0.12 * ((25 : Nat) : ℝ) = 0)
    ∧ (densityGrid ⟨Real.exp, Real.sqrt, Real.log, Real.cos, Real.pi⟩).z[25 * 50 + 25]?
        = some (some (1 / (2 * Real.pi * Real.sqrt (1 - 0.7 ^ 2))))
    ∧ (∀ (j : Nat) (v : Option ℝ),
        (densityGrid ⟨Real.exp, Real.sqrt, Real.log, Real.cos, Real.pi⟩).z[j]? = some v →
        ∃ w : ℝ, v = some w ∧ w ≤ 1 / (2 * Real.pi * Real.sqrt (1 - 0.7 ^ 2))) := by
  have hzero : (-3 + 0.12 * ((25 : Nat) : ℝ) = 0) := by norm_num
  refine ⟨densityGrid_size.2, densityGrid_cell, hzero, ?_, ?_⟩
  · rw [densityGrid_cell 25 25 (by norm_num) (by norm_num), hzero, bivariateDensity_centre]
  · intro j v hv
    rw [densityGrid_get] at hv
    split_ifs at hv with hj
    rw [Option.some.injEq] at hv
    exact ⟨_, hv.symm, bivariateDensity_le_peak _ _⟩

/-! ## Metropolis-Hastings: the chain stays in the interval -/

theorem mcmcStep_current_cases (rand : Nat → K) (target : List (Point K K)) (i : Nat)
    (st : McmcState K) :
    (mcmcStep rand target i st).current = st.current
    ∨ ((mcmcStep rand target i st).current = st.current + (rand st.pos - 0.5) * 0.5
      ∧ (st.current + (rand st.pos - 0.5) * 0.5 ≥ -3 ∧ st.current + (rand st.pos - 0.5) * 0.5 ≤ 3)
      ∧ idxInRange target (lookupIdx st.current)
      ∧ idxInRange target (lookupIdx (st.current + (rand st.pos - 0.5) * 0.5))) := by
  unfold mcmcStep
  dsimp only
  by_cases hb : st.current + (rand st.pos - 0.5) * 0.5 ≥ -3
      ∧ st.current + (rand st.pos - 0.5) * 0.5 ≤ 3
  · rw [if_pos hb]
    by_cases hidx : idxInRange target (lookupIdx st.current)
        ∧ idxInRange target (lookupIdx (st.current + (rand st.pos - 0.5) * 0.5))
    · rw [dif_pos hidx]
      split_ifs
      all_goals first
        | exact Or.inl rfl
        | exact Or.inr ⟨rfl, hb, hidx.1, hidx.2⟩
    · rw [dif_neg hidx]
      split_ifs <;> exact Or.inl rfl
  · rw [if_neg hb]
    split_ifs <;> exact Or.inl rfl

theorem mcmcAfter_in_bounds (rand : Nat → K) (target : List (Point K K))
    (h0 : -3 ≤ (mcmcInit rand).current ∧ (mcmcInit rand).current ≤ 3) (k : Nat) :
    -3 ≤ (mcmcAfter rand target k).current ∧ (mcmcAfter rand target k).current ≤ 3 := by
  induction k with
  | zero => exact h0
  | succ k ih =>
    rw [mcmcAfter_succ]
    rcases mcmcStep_current_cases rand target k (mcmcAfter rand target k) with h | ⟨h, hb, _⟩
    · rw [h]
      exact ih
    · rw [h]
      exact ⟨hb.1, hb.2⟩

theorem mcmcInit_in_bounds (rand : Nat → K) (h : 0 ≤ rand 0 ∧ rand 0 < 1) :
    -3 ≤ (mcmcInit rand).current ∧ (mcmcInit rand).current ≤ 3 := by
  unfold mcmcInit
  dsimp only
  constructor <;> linarith [h.1, h.2]

theorem tableY_generateTargetDist_pos (idx : Int)
    (h : idxInRange (generateTargetDist ⟨Real.exp, Real.sqrt, Real.log, Real.cos, Real.pi⟩) idx) :
    0 < tableY (generateTargetDist ⟨Real.exp, Real.sqrt, Real.log, Real.cos, Real.pi⟩) idx h := by
  obtain ⟨p, hp, hy⟩ := tableY_mem _ idx h
  rw [hy]
  exact (generateTargetDist_y_bounds p hp).1

theorem acceptMove_of_ne_zero (r p c : K) (hc : c ≠ 0) :
    acceptMove r p c = decide (r < min 1 (p / c)) := by
  unfold acceptMove
  rw [if_neg hc]

/-- C15: with draws in `[0, 1)` and the table of `generateTargetDist`, the
Metropolis-Hastings chain never leaves the sampling interval: the start point lies in
`[-3, 3]`; every step either keeps the current state or moves to the proposal, which then
satisfies `-3 ≤ proposed ≤ 3` and has both lookup indices inside the table; so the state
after any number of steps, and the `x` of each of the 300 retained samples, lies in
`[-3, 3]`. Every table `y` read as `currentDensity` is strictly positive, so the ratio
`proposedDensity / currentDensity` never divides by zero. -/
theorem mcmc_chain_stays_in_interval (rand : Nat → ℝ)
    (hrand : ∀ n : Nat, 0 ≤ rand n ∧ rand n < 1) :
    (-3 ≤ (mcmcInit rand).current ∧ (mcmcInit rand).current ≤ 3)
    ∧ (∀ (i : Nat) (st : McmcState ℝ),
        (mcmcStep rand (generateTargetDist ⟨Real.exp, Real.sqrt, Real.log, Real.cos, Real.pi⟩)
            i st).current = st.current
        ∨ ((mcmcStep rand (generateTargetDist ⟨Real.exp, Real.sqrt, Real.log, Real.cos, Real.pi⟩)
            i st).current = st.current + (rand st.pos - 0.5) * 0.5
          ∧ (st.current + (rand st.pos - 0.5) * 0.5 ≥ -3
            ∧ st.current + (rand st.pos - 0.5) * 0.5 ≤ 3)
          ∧ idxInRange (generateTargetDist ⟨Real.exp, Real.sqrt, Real.log, Real.cos, Real.pi⟩)
              (lookupIdx st.current)
          ∧ idxInRange (generateTargetDist ⟨Real.exp, Real.sqrt, Real.log, Real.cos, Real.pi⟩)
              (lookupIdx (st.current + (rand st.pos - 0.5) * 0.5))))
    ∧ (∀ k : Nat,
        -3 ≤ (mcmcAfter rand
          (generateTargetDist ⟨Real.exp, Real.sqrt, Real.log, Real.cos, Real.pi⟩) k).current
        ∧ (mcmcAfter rand
          (generateTargetDist ⟨Real.exp, Real.sqrt, Real.log, Real.cos, Real.pi⟩) k).current ≤ 3)
    ∧ (mcmcSampling rand
        (generateTargetDist ⟨Real.exp, Real.sqrt, Real.log, Real.cos, Real.pi⟩)).newSamples.length
        = 300
    ∧ (∀ s ∈ (mcmcSampling rand
        (generateTargetDist ⟨Real.exp, Real.sqrt, Real.log, Real.cos, Real.pi⟩)).newSamples,
        -3 ≤ s.x ∧ s.x ≤ 3)
    ∧ (∀ (idx : Int)
        (h : idxInRange (generateTargetDist ⟨Real.exp, Real.sqrt, Real.log, Real.cos, Real.pi⟩) idx),
        0 < tableY (generateTargetDist ⟨Real.exp, Real.sqrt, Real.log, Real.cos, Real.pi⟩) idx h)
    ∧ (∀ (r p : ℝ) (idx : Int)
        (h : idxInRange (generateTargetDist ⟨Real.exp, Real.sqrt, Real.log, Real.cos, Real.pi⟩) idx),
        acceptMove r p
            (tableY (generateTargetDist ⟨Real.exp, Real.sqrt, Real.log, Real.cos, Real.pi⟩) idx h)
          = decide (r < min 1 (p
            / tableY (generateTargetDist ⟨Real.exp, Real.sqrt, Real.log, Real.cos, Real.pi⟩)
                idx h))) := by
  have h0 := mcmcInit_in_bounds rand (hrand 0)
  have hx := mcmcAfter_samples rand
    (generateTargetDist ⟨Real.exp, Real.sqrt, Real.log, Real.cos, Real.pi⟩) 800
  refine ⟨h0, fun i st => mcmcStep_current_cases rand _ i st,
    fun k => mcmcAfter_in_bounds rand _ h0 k, ?_, ?_, tableY_generateTargetDist_pos,
    fun r p idx h => acceptMove_of_ne_zero r p _ (tableY_generateTargetDist_pos idx h).ne'⟩
  · have := congrArg List.length hx
    simpa [mcmcSampling_eq_mcmcAfter] using this
  · intro s hs
    rw [mcmcSampling_eq_mcmcAfter] at hs
    have hmem : s.x ∈ ((mcmcAfter rand
        (generateTargetDist ⟨Real.exp, Real.sqrt, Real.log, Real.cos, Real.pi⟩) 800).newSamples).map
        (fun s => s.x) := List.mem_map.mpr ⟨s, hs, rfl⟩
    rw [hx] at hmem
    obtain ⟨j, _, hj⟩ := List.mem_map.mp hmem
    rw [← hj]
    exact mcmcAfter_in_bounds rand _ h0 _

/-- Witness for C15: every draw equal to 1/2. -/
theorem mcmc_chain_stays_in_interval_witness :
    (∀ n : Nat, 0 ≤ (fun _ : Nat => (1 / 2 : ℝ)) n ∧ (fun _ : Nat => (1 / 2 : ℝ)) n < 1)
    ∧ (mcmcSampling (fun _ => (1 / 2 : ℝ))
        (generateTargetDist ⟨Real.exp, Real.sqrt, Real.log, Real.cos, Real.pi⟩)).newSamples.length
        = 300
    ∧ (∀ s ∈ (mcmcSampling (fun _ => (1 / 2 : ℝ))
        (generateTargetDist ⟨Real.exp, Real.sqrt, Real.log, Real.cos, Real.pi⟩)).newSamples,
        -3 ≤ s.x ∧ s.x ≤ 3) :=
  ⟨fun _ => ⟨by norm_num, by norm_num⟩,
    (mcmc_chain_stays_in_interval (fun _ => 1 / 2) (fun _ => ⟨by norm_num, by norm_num⟩)).2.2.2.1,
    (mcmc_chain_stays_in_interval (fun _ => 1 / 2)
      (fun _ => ⟨by norm_num, by norm_num⟩)).2.2.2.2.1⟩

end MLMaths
